import Mathlib

/-!
cloriTCP congestion control: New Reno and CUBIC with Hybrid Slow Start.

A shallow embedding of `src/congestion_control/ctcp_reno.c` and
`src/congestion_control/ctcp_cubic.c`.

Conventions of the embedding:

* C unsigned integers are natural numbers; every C operation that can leave
  the range of its type is followed by an explicit `% 2 ^ w`.
* `(s32)(a - b)` on `u32` operands is `toS32 (a - b)`, an `Int`.
* A C function that receives the socket pointer returns the socket (and the
  private CUBIC block) it leaves behind, next to its C return value.
* A division whose divisor is zero, a table read outside the table and a loop
  that never exits are reported as a `ctcp_fault`.
-/

namespace CloriTCP

/-! ## Machine arithmetic -/

/-- Range of a `u8`. -/
def U8 : Nat := 2 ^ 8

/-- Range of a `u16`. -/
def U16 : Nat := 2 ^ 16

/-- Range of a `u32`. -/
def U32 : Nat := 2 ^ 32

/-- Range of a `u64`. -/
def U64 : Nat := 2 ^ 64

/-- Two's-complement reading of an integer as an `s32`: the cast `(s32)x`. -/
def toS32 (x : Int) : Int := (x + 2 ^ 31) % 2 ^ 32 - 2 ^ 31

/-- Conversion of a signed value to `u32`, as C does when a signed operand
meets an unsigned one. -/
def toU32 (x : Int) : Nat := (x % 2 ^ 32).toNat

/-- The `max` helper of the C sources on unsigned operands. -/
def cmax (a b : Nat) : Nat := if a > b then a else b

/-- The `clamp(val, lo, hi)` helper of the C sources: `min(max(val, lo), hi)`. -/
def clamp (val lo hi : Nat) : Nat :=
  let m := if val > lo then val else lo
  if m < hi then m else hi

/-- What can go wrong in a run of the C code that the embedding reports
instead of computing with. -/
inductive ctcp_fault where
  | div_by_zero
  | index_out_of_range
  | no_return
deriving DecidableEq, Repr

deriving instance DecidableEq for Except

/-! ## Data model -/

/-- Modelled from the spec: the congestion states of the connection,
`ca_state: enum{Open, Disorder, Recovery, Loss}`; the C enumeration
(`CTCP_CA_OPEN`, `CTCP_CA_LOSS`, ...) is declared in a header that is not part
of the sources. -/
inductive ctcp_ca_state where
  | CTCP_CA_OPEN
  | CTCP_CA_DISORDER
  | CTCP_CA_RECOVERY
  | CTCP_CA_LOSS
deriving DecidableEq, Repr

/-- The fields of `ctcp_sock` (and of the connection behind it) that the
congestion control code reads or writes. The struct is declared in
`ctcp_congestion_control.h`, which is not part of the sources; the field names
are the ones the C code uses. `is_cwnd_limited` is the answer of
`ctcp_is_cwnd_limited(sk)`. -/
structure ctcp_sock where
  snd_cwnd : Nat
  send_ssthresh : Nat
  send_cwnd_cnt : Nat
  ca_state : ctcp_ca_state
  snd_seq : Nat
  is_cwnd_limited : Bool
deriving DecidableEq, Repr

/-- Modelled from the spec: `ctcp_is_cwnd_limited` is defined outside the
sources; the spec keeps its answer in the connection record
(`is_cwnd_limited: bool`, an externally computed flag). -/
def ctcp_is_cwnd_limited (sk : ctcp_sock) : Bool := sk.is_cwnd_limited

/-- What one call reads from its surroundings: the tick rate `HZ`, the tick
counter `tcp_time_stamp` (`u32`), the millisecond clock
`jiffies_to_msecs(jiffies)` (`u32`) and the sequence comparison `after`, all
declared outside the sources. -/
structure Env where
  HZ : Nat
  tcp_time_stamp : Nat
  clock : Nat
  after : Nat → Nat → Bool

/-! ## New Reno (`ctcp_reno.c`) -/

/-- `ctcp_slow_start`: grow the window by the number of acked segments, not
beyond `send_ssthresh + 1`. -/
def ctcp_slow_start (sk : ctcp_sock) (acked : Nat) : ctcp_sock :=
  let cwnd := (sk.snd_cwnd + acked) % U32
  let cwnd := if cwnd > sk.send_ssthresh then (sk.send_ssthresh + 1) % U32 else cwnd
  { sk with snd_cwnd := cwnd }

/-- `ctcp_cong_avoid_ai`: additive increase, one more segment once `wnd_cnt`
acks have been counted. -/
def ctcp_cong_avoid_ai (sk : ctcp_sock) (wnd_cnt : Nat) : ctcp_sock :=
  if sk.send_cwnd_cnt ≥ wnd_cnt then
    { sk with snd_cwnd := (sk.snd_cwnd + 1) % U32, send_cwnd_cnt := 0 }
  else
    { sk with send_cwnd_cnt := (sk.send_cwnd_cnt + 1) % U32 }

/-- `ctcp_reno_ssthresh`: half the window, at least 2. The socket is only
read. -/
def ctcp_reno_ssthresh (sk : ctcp_sock) : ctcp_sock × Nat :=
  (sk, cmax (sk.snd_cwnd >>> 1) 2)

/-- `ctcp_tcp_reno_cong_avoid`: slow start up to the threshold, additive
increase above it, nothing when the window did not limit the sender. -/
def ctcp_tcp_reno_cong_avoid (sk : ctcp_sock) (_ack : Nat) (acked : Nat) : ctcp_sock :=
  if !ctcp_is_cwnd_limited sk then sk
  else if sk.snd_cwnd ≤ sk.send_ssthresh then ctcp_slow_start sk acked
  else ctcp_cong_avoid_ai sk sk.snd_cwnd

/-! ## CUBIC (`ctcp_cubic.c`): constants and private state -/

def CTCP_BICTCP_BETA_SCALE : Nat := 1024
def CTCP_BICTCP_HZ : Nat := 10
def CTCP_ACK_RATIO_SHIFT : Nat := 4
def CTCP_ACK_RATIO_LIMIT : Nat := 32 <<< CTCP_ACK_RATIO_SHIFT
def CTCP_FAST_CONVERGENCE : Nat := 1
def CTCP_TCP_FRIEND_ON : Nat := 1
def CTCP_HYSTART_ON : Nat := 1
def CTCP_HYSTART_ACK_TRAIN : Nat := 0x1
def CTCP_HYSTART_DELAY : Nat := 0x2
def CTCP_HYSTART_MIN_SAMPLES : Nat := 8
def CTCP_HYSTART_DELAY_MIN : Nat := 4 <<< 3
def CTCP_HYSTART_DELAY_MAX : Nat := 16 <<< 3
def CTCP_HYSTART_LOW_WINDOW : Nat := 16
def CTCP_HYSTART_ACK_DELTA : Int := 2
def CTCP_CONGAVOID_INCREMENT : Nat := 100
def beta : Nat := 717
def beta_scale : Nat := 15
def cube_rtt_scale : Nat := 410
def cube_factor : Nat := 2681735677

/-- `CTCP_HYSTART_DELAY_THRESH(x)`. -/
def CTCP_HYSTART_DELAY_THRESH (x : Nat) : Nat :=
  clamp x CTCP_HYSTART_DELAY_MIN CTCP_HYSTART_DELAY_MAX

/-- Modelled from the spec: `USEC_PER_MSEC` comes from a header outside the
sources; the spec gives RTT samples in microseconds and has 50000 us become a
delay of 400 eighths of a millisecond, so it is 1000. -/
def USEC_PER_MSEC : Int := 1000

/-- The private block `struct bictcp`, field for field. -/
structure bictcp where
  cnt : Nat
  last_max_cwnd : Nat
  loss_cwnd : Nat
  last_cwnd : Nat
  last_time : Nat
  bic_origin_point : Nat
  bic_K : Nat
  delay_min : Nat
  epoch_start : Nat
  ack_cnt : Nat
  tcp_cwnd : Nat
  delayed_ack : Nat
  sample_cnt : Nat
  found : Nat
  round_start : Nat
  end_seq : Nat
  last_ack : Nat
  curr_rtt : Nat
deriving DecidableEq, Repr

/-- `ctcp_bictcp_reset`: the twelve fields the C function writes; `loss_cwnd`
and the Hystart round fields are not among them. -/
def ctcp_bictcp_reset (ca : bictcp) : bictcp :=
  { ca with
    cnt := 0
    last_max_cwnd := 0
    last_cwnd := 0
    last_time := 0
    bic_origin_point := 0
    bic_K := 0
    delay_min := 0
    epoch_start := 0
    delayed_ack := 2 <<< CTCP_ACK_RATIO_SHIFT
    ack_cnt := 0
    tcp_cwnd := 0
    found := 0 }

/-- `ctcp_bictcp_clock`: the millisecond clock. -/
def ctcp_bictcp_clock (e : Env) : Nat := e.clock

/-- `ctcp_bictcp_hystart_reset`: start a new Hystart round. -/
def ctcp_bictcp_hystart_reset (e : Env) (sk : ctcp_sock) (ca : bictcp) : bictcp :=
  { ca with
    round_start := ctcp_bictcp_clock e
    last_ack := ctcp_bictcp_clock e
    end_seq := sk.snd_seq
    curr_rtt := 0
    sample_cnt := 0 }

/-- `ctcp_bictcp_init`. -/
def ctcp_bictcp_init (e : Env) (sk : ctcp_sock) (ca : bictcp) : ctcp_sock × bictcp :=
  let ca := ctcp_bictcp_reset ca
  let ca := { ca with loss_cwnd := 0 }
  let ca := if CTCP_HYSTART_ON ≠ 0 then ctcp_bictcp_hystart_reset e sk ca else ca
  (sk, ca)

/-! ## CUBIC: cube root -/

/-- The table `v` of `ctcp_cubic_root`. -/
def v : List Nat :=
  [   0,  54,  54,  54, 118, 118, 118, 118,
    123, 129, 134, 138, 143, 147, 151, 156,
    157, 161, 164, 168, 170, 173, 176, 179,
    181, 185, 187, 190, 192, 194, 197, 199,
    200, 202, 204, 206, 209, 211, 213, 215,
    217, 219, 221, 222, 224, 225, 227, 229,
    231, 232, 234, 236, 237, 239, 240, 242,
    244, 245, 246, 248, 250, 251, 252, 254 ]

/-- A read `v[i]`; outside the table it is a fault. -/
def v_at (i : Nat) : Except ctcp_fault Nat :=
  match v[i]? with
  | some x => .ok x
  | none => .error ctcp_fault.index_out_of_range

/-- An unsigned division `a / b`; by zero it is a fault. -/
def udiv (a b : Nat) : Except ctcp_fault Nat :=
  if b = 0 then .error ctcp_fault.div_by_zero else .ok (a / b)

/-- Number of binary digits of `a`, looking at no more than `n` of them. -/
def fls_bits : Nat → Nat → Nat
  | 0, _ => 0
  | n + 1, a => if a = 0 then 0 else fls_bits n (a / 2) + 1

/-- Modelled from the spec: `fls64` is a bit helper defined outside the
sources (the code comment calls its result the most significant bit of `a`):
the 1-based position of the highest set bit of a 64-bit word, 0 for 0. -/
def fls64 (a : Nat) : Nat := fls_bits 64 a

/-- `ctcp_cubic_root`: table lookup followed by one Newton-Raphson step. -/
def ctcp_cubic_root (a : Nat) : Except ctcp_fault Nat :=
  let b := fls64 a
  if b < 7 then do
    let y ← v_at (a % U32)
    pure ((y + 35) >>> 6)
  else do
    let b := (((b * 84) % U32) >>> 8 + U32 - 1) % U32
    let shift := (a >>> ((b * 3) % U32)) % U32
    let y ← v_at shift
    let x := (((y + 10) <<< b) % U32) >>> 6
    let q ← udiv a ((x * ((x + U32 - 1) % U32)) % U64)
    let x := (2 * x + q % U32) % U32
    let x := ((x * 341) % U32) >>> 10
    pure x

/-! ## CUBIC: window update -/

/-- The loop `while (ca->ack_cnt > delta) { ca->ack_cnt -= delta; ca->tcp_cwnd++; }`
of `ctcp_bictcp_update`, run for at most `fuel + 1` tests of its condition; the
result is the pair `(ack_cnt, tcp_cwnd)` on exit. -/
def tcp_friend_loop : Nat → Nat → Nat → Nat → Except ctcp_fault (Nat × Nat)
  | 0, delta, ack_cnt, tcp_cwnd =>
    if ack_cnt > delta then .error ctcp_fault.no_return else .ok (ack_cnt, tcp_cwnd)
  | fuel + 1, delta, ack_cnt, tcp_cwnd =>
    if ack_cnt > delta then
      tcp_friend_loop fuel delta (ack_cnt - delta) ((tcp_cwnd + 1) % U32)
    else .ok (ack_cnt, tcp_cwnd)

/-- Lines 212-238 of `ctcp_bictcp_update`: the first update after a closed
epoch (`epoch_start == 0`) opens a new one and fixes `bic_K` and
`bic_origin_point`. -/
def bictcp_update_epoch (e : Env) (ca : bictcp) (cwnd : Nat) : Except ctcp_fault bictcp :=
  if 0 = ca.epoch_start then
    let ca1 : bictcp := { ca with epoch_start := e.tcp_time_stamp, ack_cnt := 1, tcp_cwnd := cwnd }
    if ca1.last_max_cwnd ≤ cwnd then
      Except.ok { ca1 with bic_K := 0, bic_origin_point := cwnd }
    else
      (ctcp_cubic_root ((cube_factor * (ca1.last_max_cwnd - cwnd)) % U64)).bind
        (fun k => Except.ok { ca1 with bic_K := k, bic_origin_point := ca1.last_max_cwnd })
  else Except.ok ca

/-- Lines 261-294 of `ctcp_bictcp_update`: from the time `t` (already in units
of `2^-10` s) to `bic_target`. -/
def bictcp_update_target (ca : bictcp) (t : Nat) : Nat :=
  let offs := if t < ca.bic_K then ca.bic_K - t else t - ca.bic_K
  let delta :=
    (((((((cube_rtt_scale * offs) % U64) * offs) % U64) * offs) % U64)
      >>> (10 + 3 * CTCP_BICTCP_HZ)) % U32
  if t < ca.bic_K then (ca.bic_origin_point + U32 - delta) % U32
  else (ca.bic_origin_point + delta) % U32

/-- Lines 307-324 of `ctcp_bictcp_update`: the growth rate from `bic_target`,
with the cap of 20 while no loss has been seen. -/
def bictcp_update_cnt (ca : bictcp) (cwnd : Nat) (bic_target : Nat) : Except ctcp_fault bictcp :=
  (if bic_target > cwnd then udiv cwnd (bic_target - cwnd)
   else Except.ok ((CTCP_CONGAVOID_INCREMENT * cwnd) % U32)).bind
    (fun c =>
      let ca1 : bictcp := { ca with cnt := c }
      Except.ok (if ca1.last_max_cwnd = 0 ∧ ca1.cnt > 20 then { ca1 with cnt := 20 } else ca1))

/-- Lines 329-344 of `ctcp_bictcp_update`: the TCP friendliness block. The
loop gets `ack_cnt` rounds of fuel: each round takes `delta` off `ack_cnt`, so
that is enough exactly when the C loop exits. -/
def bictcp_update_friend (ca : bictcp) (cwnd : Nat) : Except ctcp_fault bictcp :=
  if CTCP_TCP_FRIEND_ON ≠ 0 then
    let delta := ((cwnd * beta_scale) % U32) >>> 3
    (tcp_friend_loop ca.ack_cnt delta ca.ack_cnt ca.tcp_cwnd).bind
      (fun r =>
        let ca1 : bictcp := { ca with ack_cnt := r.1, tcp_cwnd := r.2 }
        if ca1.tcp_cwnd > cwnd then
          let delta := ca1.tcp_cwnd - cwnd
          (udiv cwnd delta).bind
            (fun max_cnt => Except.ok (if ca1.cnt > max_cnt then { ca1 with cnt := max_cnt } else ca1))
        else Except.ok ca1)
  else Except.ok ca

/-- Lines 346-349 of `ctcp_bictcp_update`: scaling by the delayed-ACK ratio
and the floor of 1. -/
def bictcp_update_scale (ca : bictcp) : Except ctcp_fault bictcp :=
  (udiv ((ca.cnt <<< CTCP_ACK_RATIO_SHIFT) % U32) ca.delayed_ack).bind
    (fun c =>
      let ca1 : bictcp := { ca with cnt := c }
      Except.ok (if 0 = ca1.cnt then { ca1 with cnt := 1 } else ca1))

/-- `ctcp_bictcp_update`, as the sequence of its blocks. The local `t` is read
by the C code without having been assigned (the assignment
`t = (s32)(tcp_time_stamp - ca->epoch_start)` is inside a comment), so the
value it holds on entry is an argument here. -/
def ctcp_bictcp_update (e : Env) (t : Nat) (ca : bictcp) (cwnd : Nat) :
    Except ctcp_fault bictcp :=
  let ca1 : bictcp := { ca with ack_cnt := (ca.ack_cnt + 1) % U32 }
  if ca1.last_cwnd = cwnd ∧
      toS32 ((e.tcp_time_stamp : Int) - (ca1.last_time : Int)) ≤ ((e.HZ / 32 : Nat) : Int) then
    Except.ok ca1
  else
    let ca2 : bictcp := { ca1 with last_cwnd := cwnd, last_time := e.tcp_time_stamp }
    (bictcp_update_epoch e ca2 cwnd).bind (fun ca3 =>
    (udiv ((t <<< CTCP_BICTCP_HZ) % U64) e.HZ).bind (fun t1 =>
    (bictcp_update_cnt ca3 cwnd (bictcp_update_target ca3 t1)).bind (fun ca4 =>
    (bictcp_update_friend ca4 cwnd).bind (fun ca5 =>
    bictcp_update_scale ca5))))

/-! ## CUBIC: the interface operations -/

/-- `ctcp_bictcp_cong_avoid`. -/
def ctcp_bictcp_cong_avoid (e : Env) (t : Nat) (sk : ctcp_sock) (ca : bictcp)
    (ack : Nat) (acked : Nat) : Except ctcp_fault (ctcp_sock × bictcp) :=
  if !ctcp_is_cwnd_limited sk then .ok (sk, ca)
  else if sk.snd_cwnd ≤ sk.send_ssthresh then
    let ca :=
      if CTCP_HYSTART_ON ≠ 0 ∧ e.after ack ca.end_seq = true then
        ctcp_bictcp_hystart_reset e sk ca
      else ca
    .ok (ctcp_slow_start sk acked, ca)
  else
    (ctcp_bictcp_update e t ca sk.snd_cwnd).bind
      (fun ca1 => .ok (ctcp_cong_avoid_ai sk ca1.cnt, ca1))

/-- `ctcp_bictcp_recalc_ssthresh`. -/
def ctcp_bictcp_recalc_ssthresh (sk : ctcp_sock) (ca : bictcp) : (ctcp_sock × bictcp) × Nat :=
  let ca := { ca with epoch_start := 0 }
  let ca :=
    if sk.snd_cwnd < ca.last_max_cwnd ∧ CTCP_FAST_CONVERGENCE ≠ 0 then
      { ca with last_max_cwnd :=
          ((sk.snd_cwnd * (CTCP_BICTCP_BETA_SCALE + beta)) % U32) / (CTCP_BICTCP_BETA_SCALE <<< 1) }
    else { ca with last_max_cwnd := sk.snd_cwnd }
  let ca := { ca with loss_cwnd := sk.snd_cwnd }
  ((sk, ca), cmax (((sk.snd_cwnd * beta) % U32) / CTCP_BICTCP_BETA_SCALE) 2)

/-- `ctcp_bictcp_undo_cwnd`. -/
def ctcp_bictcp_undo_cwnd (sk : ctcp_sock) (ca : bictcp) : (ctcp_sock × bictcp) × Nat :=
  ((sk, ca), cmax sk.snd_cwnd ca.loss_cwnd)

/-- `ctcp_bictcp_state`. -/
def ctcp_bictcp_state (e : Env) (sk : ctcp_sock) (ca : bictcp) (new_state : ctcp_ca_state) :
    ctcp_sock × bictcp :=
  if ctcp_ca_state.CTCP_CA_LOSS = new_state then
    let ca := ctcp_bictcp_reset ca
    let ca := ctcp_bictcp_hystart_reset e sk ca
    (sk, ca)
  else (sk, ca)

/-- `ctcp_hystart_update`. In `(s32)(now - ca->round_start) > (ca->delay_min >> 4)`
the right operand is a `u32`, so C compares the two as `u32`; the comparisons
against `CTCP_HYSTART_ACK_DELTA` are signed. -/
def ctcp_hystart_update (e : Env) (sk : ctcp_sock) (ca : bictcp) (delay : Nat) :
    ctcp_sock × bictcp :=
  let now := ctcp_bictcp_clock e
  if ca.found &&& (CTCP_HYSTART_ACK_TRAIN ||| CTCP_HYSTART_DELAY) ≠ 0 then (sk, ca)
  else
    let ca :=
      if toS32 ((now : Int) - (ca.last_ack : Int)) ≤ CTCP_HYSTART_ACK_DELTA then
        let ca := { ca with last_ack := now }
        if toU32 (toS32 ((now : Int) - (ca.round_start : Int))) > (ca.delay_min >>> 4) then
          { ca with found := (ca.found ||| CTCP_HYSTART_ACK_TRAIN) % U8 }
        else ca
      else ca
    let ca :=
      if ca.sample_cnt < CTCP_HYSTART_MIN_SAMPLES then
        let ca := if ca.curr_rtt = 0 ∨ ca.curr_rtt > delay then { ca with curr_rtt := delay } else ca
        { ca with sample_cnt := (ca.sample_cnt + 1) % U8 }
      else
        if ca.curr_rtt > (ca.delay_min + CTCP_HYSTART_DELAY_THRESH (ca.delay_min >>> 4)) % U32 then
          { ca with found := (ca.found ||| CTCP_HYSTART_DELAY) % U8 }
        else ca
    if ca.found &&& (CTCP_HYSTART_ACK_TRAIN ||| CTCP_HYSTART_DELAY) ≠ 0 then
      ({ sk with send_ssthresh := sk.snd_cwnd }, ca)
    else (sk, ca)

/-- `ctcp_bictcp_acked`. `rtt_us` is an `s32`; `rtt_us << 3` is computed in
`s32` (two's-complement wrap), the division by `USEC_PER_MSEC` truncates
towards zero and the quotient is stored in the `u32` `delay`. -/
def ctcp_bictcp_acked (e : Env) (sk : ctcp_sock) (ca : bictcp) (cnt : Nat) (rtt_us : Int) :
    ctcp_sock × bictcp :=
  let ca :=
    if ctcp_ca_state.CTCP_CA_OPEN = sk.ca_state then
      let ratio := ca.delayed_ack
      let ratio := (ratio + U32 - (ca.delayed_ack >>> CTCP_ACK_RATIO_SHIFT)) % U32
      let ratio := (ratio + cnt) % U32
      { ca with delayed_ack := (clamp ratio 1 CTCP_ACK_RATIO_LIMIT) % U16 }
    else ca
  if rtt_us < 0 then (sk, ca)
  else if ca.epoch_start ≠ 0 ∧
      toS32 ((e.tcp_time_stamp : Int) - (ca.epoch_start : Int)) < (e.HZ : Int) then (sk, ca)
  else
    let delay := toU32 (Int.tdiv (toS32 (rtt_us * 2 ^ 3)) USEC_PER_MSEC)
    let delay := if 0 = delay then 1 else delay
    let ca := if 0 = ca.delay_min ∨ ca.delay_min > delay then { ca with delay_min := delay } else ca
    if CTCP_HYSTART_ON ≠ 0 ∧ sk.snd_cwnd ≤ sk.send_ssthresh ∧
        sk.snd_cwnd ≥ CTCP_HYSTART_LOW_WINDOW then
      ctcp_hystart_update e sk ca delay
    else (sk, ca)

/-! ## Runs of the per-ACK hook -/

/-- One call of `cong_avoid` by the connection layer: what the call reads from
its surroundings, the value the unassigned local `t` of `ctcp_bictcp_update`
holds, and the two arguments. -/
structure ack_event where
  env : Env
  t : Nat
  ack : Nat
  acked : Nat

/-- The windows New Reno leaves after each call of a run. -/
def reno_cwnd_trace : ctcp_sock → List ack_event → List Nat
  | _, [] => []
  | sk, a :: rest =>
    let sk1 := ctcp_tcp_reno_cong_avoid sk a.ack a.acked
    sk1.snd_cwnd :: reno_cwnd_trace sk1 rest

/-- The windows CUBIC leaves after each call of a run. -/
def cubic_cwnd_trace : ctcp_sock → bictcp → List ack_event → Except ctcp_fault (List Nat)
  | _, _, [] => Except.ok []
  | sk, ca, a :: rest =>
    (ctcp_bictcp_cong_avoid a.env a.t sk ca a.ack a.acked).bind (fun r =>
      (cubic_cwnd_trace r.1 r.2 rest).bind (fun tr => Except.ok (r.1.snd_cwnd :: tr)))

/-- The run stays in slow start: before every call the window is at most the
threshold. -/
def in_slow_start : ctcp_sock → List ack_event → Prop
  | _, [] => True
  | sk, a :: rest =>
    sk.snd_cwnd ≤ sk.send_ssthresh ∧
      in_slow_start (ctcp_tcp_reno_cong_avoid sk a.ack a.acked) rest

/-- Scenario A of the spec: `cwnd = 10`, `ssthresh = 1000000`, window-limited. -/
def scenario_A : ctcp_sock :=
  { snd_cwnd := 10, send_ssthresh := 1000000, send_cwnd_cnt := 0,
    ca_state := ctcp_ca_state.CTCP_CA_OPEN, snd_seq := 0, is_cwnd_limited := true }

/-- An environment whose clocks read 5000, whose `HZ` is 1000 and whose `after`
is the signed-difference comparison of sequence numbers. -/
def env_5000 : Env :=
  { HZ := 1000, tcp_time_stamp := 5000, clock := 5000,
    after := fun a b => decide (toS32 ((b : Int) - (a : Int)) < 0) }

/-- The all-zero private block. -/
def bictcp_zero : bictcp :=
  { cnt := 0, last_max_cwnd := 0, loss_cwnd := 0, last_cwnd := 0, last_time := 0,
    bic_origin_point := 0, bic_K := 0, delay_min := 0, epoch_start := 0, ack_cnt := 0,
    tcp_cwnd := 0, delayed_ack := 0, sample_cnt := 0, found := 0, round_start := 0,
    end_seq := 0, last_ack := 0, curr_rtt := 0 }

/-! ## Runs of the per-segment hook, and the connections used as examples -/

/-- The socket of the counterexample to C2: `cwnd = 10`, `ssthresh = 100`. -/
def wrap_sock : ctcp_sock :=
  { snd_cwnd := 10, send_ssthresh := 100, send_cwnd_cnt := 0,
    ca_state := ctcp_ca_state.CTCP_CA_OPEN, snd_seq := 0, is_cwnd_limited := true }

/-- Scenario B of the spec: a connection in congestion avoidance with
`cwnd = 100`. -/
def scenario_B : ctcp_sock :=
  { snd_cwnd := 100, send_ssthresh := 50, send_cwnd_cnt := 0,
    ca_state := ctcp_ca_state.CTCP_CA_OPEN, snd_seq := 0, is_cwnd_limited := true }

/-- A private block whose last maximum, 200, is above the window of scenario B
and whose last loss was at a window of 150. -/
def bictcp_after_loss : bictcp :=
  { bictcp_zero with last_max_cwnd := 200, loss_cwnd := 150, epoch_start := 4000,
                     delayed_ack := 32 }

/-- Scenario A with the sender not limited by the window. -/
def scenario_A_idle : ctcp_sock := { scenario_A with is_cwnd_limited := false }

/-- One call of `pkts_acked` by the connection layer: what the call reads from
its surroundings, the socket as the connection layer presents it at that
moment, and the two arguments. -/
structure acked_event where
  env : Env
  sk : ctcp_sock
  cnt : Nat
  rtt_us : Int

/-- The private block after a run of `ctcp_bictcp_acked` calls. -/
def acked_run : bictcp → List acked_event → bictcp
  | ca, [] => ca
  | ca, a :: rest => acked_run (ctcp_bictcp_acked a.env a.sk ca a.cnt a.rtt_us).2 rest

/-- A socket below the Hystart low-window threshold, in slow start. -/
def low_window_sock : ctcp_sock := { scenario_A with snd_cwnd := 15 }

/-- A private block that has collected its eight samples at a minimum delay of
400 and now sees a round RTT of 600: were Hystart consulted, the delay test
would fire. -/
def bictcp_delay_ready : bictcp :=
  { bictcp_zero with delay_min := 400, curr_rtt := 600, sample_cnt := 8, delayed_ack := 32,
                     round_start := 5000, last_ack := 5000 }

/-! ## The pieces of `ctcp_cubic_root`, named -/

/-- The second value of `b` in `ctcp_cubic_root`: `((b * 84) >> 8) - 1` for
`b = fls64(a)`, in `u32`. -/
def root_shift (a : Nat) : Nat := (((fls64 a * 84) % U32) >>> 8 + U32 - 1) % U32

/-- The first estimate `x = ((u32)(((u32)v[shift] + 10) << b)) >> 6` of
`ctcp_cubic_root`, for the table entry `y = v[shift]`. -/
def root_start (y b : Nat) : Nat := (((y + 10) <<< b) % U32) >>> 6

/-- The divisor `(u64)x * (u64)(x - 1)` of the Newton-Raphson step. -/
def root_divisor (x : Nat) : Nat := (x * ((x + U32 - 1) % U32)) % U64

/-- The Newton-Raphson step of `ctcp_cubic_root` from the estimate `x` and the
quotient `q = a / (x * (x - 1))`: `x = 2 * x + (u32)q; x = (x * 341) >> 10`. -/
def root_newton (x q : Nat) : Nat := (((2 * x + q % U32) % U32 * 341) % U32) >>> 10

/-! ## An interval check of the cube root error -/

/-- The distance `|r^3 - a|`. -/
def cube_error (r a : Nat) : Nat := if a ≤ r ^ 3 then r ^ 3 - a else a - r ^ 3

/-- All `a` of `[clo, chi]` with `a / d = q` get the same root from the
estimate `x`; the 1% bound holds for all of them when its lower half holds at
the smallest and its upper half at the largest. -/
def root_check_q (x d clo chi q : Nat) : Bool :=
  let lo := max clo (q * d)
  let hi := min chi (q * d + d - 1)
  let r := root_newton x q
  decide (100 * r ^ 3 < 101 * lo) && decide (99 * hi < 100 * r ^ 3)

/-- The check of one cell: the `a` of `[A, L)` with shift `bp` and table index
`idx`, quotient by quotient. -/
def root_check_cell (A L bp idx : Nat) : Bool :=
  let x := root_start (v.getD idx 0) bp
  let d := root_divisor x
  let clo := max (idx <<< (3 * bp)) A
  let chi := min ((idx + 1) <<< (3 * bp) - 1) (L - 1)
  decide (chi < clo) ||
    (List.range (chi / d - clo / d + 1)).all (fun k => root_check_q x d clo chi (clo / d + k))

/-- The check of every cell with shift 7 to 12 and table index 8 to 63. -/
def root_check (A L : Nat) : Bool :=
  (List.range 6).all (fun i =>
    (List.range 56).all (fun j => root_check_cell A L (7 + i) (8 + j)))

/-! ## The pieces of `ctcp_hystart_update`, named -/

/-- Lines 421-427 of `ctcp_hystart_update`: the ACK-train test. -/
def hystart_ack_train (e : Env) (ca : bictcp) : bictcp :=
  if toS32 ((ctcp_bictcp_clock e : Int) - (ca.last_ack : Int)) ≤ CTCP_HYSTART_ACK_DELTA then
    let ca1 : bictcp := { ca with last_ack := ctcp_bictcp_clock e }
    if toU32 (toS32 ((ctcp_bictcp_clock e : Int) - (ca1.round_start : Int))) >
        (ca1.delay_min >>> 4) then
      { ca1 with found := (ca1.found ||| CTCP_HYSTART_ACK_TRAIN) % U8 }
    else ca1
  else ca

/-- Lines 429-438 of `ctcp_hystart_update`: sample collection, then the delay
test. -/
def hystart_delay_sample (ca : bictcp) (delay : Nat) : bictcp :=
  if ca.sample_cnt < CTCP_HYSTART_MIN_SAMPLES then
    let ca1 : bictcp :=
      if ca.curr_rtt = 0 ∨ ca.curr_rtt > delay then { ca with curr_rtt := delay } else ca
    { ca1 with sample_cnt := (ca1.sample_cnt + 1) % U8 }
  else
    if ca.curr_rtt > (ca.delay_min + CTCP_HYSTART_DELAY_THRESH (ca.delay_min >>> 4)) % U32 then
      { ca with found := (ca.found ||| CTCP_HYSTART_DELAY) % U8 }
    else ca

/-- A private block in slow start that has collected its eight samples at a
minimum delay of 400 (eight samples of 50000 us) and whose round minimum is
600; the last ACK is long past, so the ACK-train test is off. -/
def scenario_C : bictcp :=
  { bictcp_zero with delay_min := 400, curr_rtt := 600, sample_cnt := 8, delayed_ack := 32,
                     round_start := 1000, last_ack := 1000, end_seq := 0 }

/-- The socket of scenario C: slow start with a window of 100. -/
def scenario_C_sock : ctcp_sock :=
  { snd_cwnd := 100, send_ssthresh := 1000000, send_cwnd_cnt := 0,
    ca_state := ctcp_ca_state.CTCP_CA_OPEN, snd_seq := 0, is_cwnd_limited := true }

/-- An environment whose clocks read 1000, with `HZ = 1000`. -/
def env_1000 : Env :=
  { HZ := 1000, tcp_time_stamp := 1000, clock := 1000,
    after := fun a b => decide (toS32 ((b : Int) - (a : Int)) < 0) }

/-! ## Runs of the six interface operations -/

/-- One call through the operation table `g_ctcp_cubic`, with what it reads
from its surroundings and the socket as the connection layer presents it. -/
inductive cubic_call where
  | init (e : Env) (sk : ctcp_sock)
  | ssthresh (sk : ctcp_sock)
  | cong_avoid (e : Env) (t : Nat) (sk : ctcp_sock) (ack : Nat) (acked : Nat)
  | set_state (e : Env) (sk : ctcp_sock) (new_state : ctcp_ca_state)
  | undo_cwnd (sk : ctcp_sock)
  | pkts_acked (e : Env) (sk : ctcp_sock) (cnt : Nat) (rtt_us : Int)

/-- The private block a call leaves. -/
def cubic_apply (ca : bictcp) : cubic_call → Except ctcp_fault bictcp
  | cubic_call.init e sk => Except.ok (ctcp_bictcp_init e sk ca).2
  | cubic_call.ssthresh sk => Except.ok (ctcp_bictcp_recalc_ssthresh sk ca).1.2
  | cubic_call.cong_avoid e t sk ack acked =>
    (ctcp_bictcp_cong_avoid e t sk ca ack acked).bind (fun r => Except.ok r.2)
  | cubic_call.set_state e sk new_state => Except.ok (ctcp_bictcp_state e sk ca new_state).2
  | cubic_call.undo_cwnd sk => Except.ok (ctcp_bictcp_undo_cwnd sk ca).1.2
  | cubic_call.pkts_acked e sk cnt rtt_us => Except.ok (ctcp_bictcp_acked e sk ca cnt rtt_us).2

/-- The private block a sequence of calls leaves. -/
def cubic_run : bictcp → List cubic_call → Except ctcp_fault bictcp
  | ca, [] => Except.ok ca
  | ca, c :: rest => (cubic_apply ca c).bind (fun ca1 => cubic_run ca1 rest)

/-- A run that acknowledges `2^32 - 1` segments at once, takes a loss, grows
the window in congestion avoidance, and acknowledges 100000 segments at
once. -/
def demo_calls : List cubic_call :=
  [ cubic_call.pkts_acked env_5000 scenario_A 4294967295 50000,
    cubic_call.ssthresh scenario_B,
    cubic_call.cong_avoid env_5000 0 scenario_B 1 1,
    cubic_call.undo_cwnd scenario_B,
    cubic_call.pkts_acked env_5000 scenario_B 100000 (-1),
    cubic_call.pkts_acked env_5000 scenario_B 0 (-1) ]

/-- The private block the demonstration run leaves. -/
def demo_final : bictcp :=
  match cubic_run (ctcp_bictcp_init env_5000 scenario_A bictcp_zero).2 demo_calls with
  | Except.ok ca => ca
  | Except.error _ => bictcp_zero

/-- The run that leads to scenario C: a connection is set up at tick 1000
with a window of 99, eight samples of 50000 us arrive (two segments
acknowledged by each ACK), an ACK past `end_seq` opens a new round in slow
start and takes the window to 100, and eight samples of 75000 us arrive. -/
def scenario_C_calls : List cubic_call :=
  cubic_call.init env_1000 { scenario_C_sock with snd_cwnd := 99 } ::
    (List.replicate 8
        (cubic_call.pkts_acked env_1000 { scenario_C_sock with snd_cwnd := 99 } 2 50000) ++
      cubic_call.cong_avoid env_1000 0 { scenario_C_sock with snd_cwnd := 99 } 1 1 ::
        List.replicate 8 (cubic_call.pkts_acked env_1000 scenario_C_sock 2 75000))

/-! ## The curve -/

/-- The `delta` of the curve evaluation of `ctcp_bictcp_update`, line 285:
`(cube_rtt_scale * offs * offs * offs) >> (10 + 3 * CTCP_BICTCP_HZ)`, the
products in `u64`, stored in the `u32` `delta`. -/
def bictcp_curve_delta (offs : Nat) : Nat :=
  (((((((cube_rtt_scale * offs) % U64) * offs) % U64) * offs) % U64)
    >>> (10 + 3 * CTCP_BICTCP_HZ)) % U32

/-- The time the spec gives the curve evaluation: the elapsed time since
`epoch_start`, `(s32)(tcp_time_stamp - epoch_start)` as in the assignment the C
code has commented out, converted to units of `2^-10` s by `<< 10` and the
division by `HZ`. -/
def spec_curve_time (e : Env) (ca : bictcp) : Nat :=
  (((toS32 ((e.tcp_time_stamp : Int) - (ca.epoch_start : Int))).toNat % U64)
    <<< CTCP_BICTCP_HZ) % U64 / e.HZ

/-- An environment ten seconds into an epoch that began at tick 4000, with
`HZ = 1000`. -/
def env_14000 : Env :=
  { HZ := 1000, tcp_time_stamp := 14000, clock := 14000,
    after := fun a b => decide (toS32 ((b : Int) - (a : Int)) < 0) }

/-- A private block in an open epoch that began at tick 4000, with the curve
origin at 100 and `bic_K = 0`, a delayed-ACK ratio of 1 (16 in fixed point). -/
def open_epoch : bictcp :=
  { bictcp_zero with last_max_cwnd := 100, loss_cwnd := 100, last_cwnd := 99,
                     last_time := 13000, bic_origin_point := 100, bic_K := 0,
                     epoch_start := 4000, ack_cnt := 5, tcp_cwnd := 100, delayed_ack := 16 }

/-- A private block with the curve origin at 1000 and `bic_K = 20000`. -/
def curve_block : bictcp :=
  { bictcp_zero with bic_origin_point := 1000, bic_K := 20000 }

/-- A private block with the curve origin at 50000000 and `bic_K = 400000`:
at an offset of 400000 the product `410 * offs^3` no longer fits 64 bits. -/
def wide_curve : bictcp :=
  { bictcp_zero with bic_origin_point := 50000000, bic_K := 400000 }

/-- A freshly initialised private block. -/
def fresh_block : bictcp := (ctcp_bictcp_init env_5000 scenario_A bictcp_zero).2

/-! ## The window update up to the friendliness block -/

/-- Lines 200-324 of `ctcp_bictcp_update` on a run that does not return at
line 203: the private block on entry to the friendliness block, after the ACK
count, the epoch block, the conversion of `t` and the growth rate from the
curve. -/
def update_before_friend (e : Env) (t : Nat) (ca : bictcp) (cwnd : Nat) :
    Except ctcp_fault bictcp :=
  let ca1 : bictcp := { ca with ack_cnt := (ca.ack_cnt + 1) % U32 }
  let ca2 : bictcp := { ca1 with last_cwnd := cwnd, last_time := e.tcp_time_stamp }
  (bictcp_update_epoch e ca2 cwnd).bind (fun ca3 =>
  (udiv ((t <<< CTCP_BICTCP_HZ) % U64) e.HZ).bind (fun t1 =>
  bictcp_update_cnt ca3 cwnd (bictcp_update_target ca3 t1)))

/-- The socket and the private block a run of `cong_avoid` calls leaves, each
call made on the socket the call before it left. -/
def cubic_state_run : ctcp_sock → bictcp → List ack_event →
    Except ctcp_fault (ctcp_sock × bictcp)
  | sk, ca, [] => Except.ok (sk, ca)
  | sk, ca, a :: rest =>
    (ctcp_bictcp_cong_avoid a.env a.t sk ca a.ack a.acked).bind (fun r =>
      cubic_state_run r.1 r.2 rest)

/-- A connection that has just lost a segment at a window of 37. -/
def loss_sock : ctcp_sock :=
  { snd_cwnd := 37, send_ssthresh := 1000000, send_cwnd_cnt := 0,
    ca_state := ctcp_ca_state.CTCP_CA_OPEN, snd_seq := 0, is_cwnd_limited := true }

/-- The connection after that loss: the threshold is what
`ctcp_bictcp_recalc_ssthresh` returned, `37 * 717 / 1024 = 25`, and the window
has been cut to it. -/
def recovered_sock : ctcp_sock :=
  { loss_sock with snd_cwnd := 25, send_ssthresh := 25 }

/-- The private block after that loss, on a freshly initialised connection. -/
def recovered_block : bictcp := (ctcp_bictcp_recalc_ssthresh loss_sock fresh_block).1.2

/-- Fifty ACKs of one segment each, all at tick 5000, the local `t` of
`ctcp_bictcp_update` holding 0. -/
def fifty_acks : List ack_event :=
  List.replicate 50 { env := env_5000, t := 0, ack := 1, acked := 1 }

/-- The socket after the fifty ACKs: one step of slow start took the window to
26, and 49 calls in congestion avoidance counted 49 ACKs. -/
def plateau_sock : ctcp_sock :=
  { recovered_sock with snd_cwnd := 26, send_cwnd_cnt := 49 }

/-- The private block after the fifty ACKs: the epoch opened at tick 5000 with
the origin at the last maximum, 37, and `bic_K = 3090`; the curve is at the
window, so `cnt` is `100 * 26 * 16 / 32 = 1300`; 49 ACKs are counted and the
Reno estimate is still the window. -/
def plateau_block : bictcp :=
  { bictcp_zero with cnt := 1300, last_max_cwnd := 37, loss_cwnd := 37, last_cwnd := 26,
                     last_time := 5000, bic_origin_point := 37, bic_K := 3090,
                     epoch_start := 5000, ack_cnt := 49, tcp_cwnd := 26, delayed_ack := 32,
                     round_start := 5000, last_ack := 5000 }

/-- An environment a tenth of a second later: the clocks read 5100. -/
def env_5100 : Env :=
  { HZ := 1000, tcp_time_stamp := 5100, clock := 5100,
    after := fun a b => decide (toS32 ((b : Int) - (a : Int)) < 0) }

/-- The private block before the friendliness block when the next ACK arrives
at tick 5100: the ACK is counted and the growth rate from the curve is
`100 * 26 = 2600`. -/
def plateau_entry : bictcp :=
  { plateau_block with cnt := 2600, ack_cnt := 50, last_time := 5100 }

/-- The private block the update leaves when the next ACK arrives at tick
5100: the loop has run once, the Reno estimate is 27 and `cnt` is
`26 * 16 / 32 = 13`. -/
def plateau_next : bictcp :=
  { plateau_block with cnt := 13, ack_cnt := 2, tcp_cwnd := 27, last_time := 5100 }

/-! ## Runs of the additive increase -/

/-- The socket after `n` calls of `ctcp_cong_avoid_ai` with the same
`wnd_cnt`. -/
def ai_run (wnd_cnt : Nat) : Nat → ctcp_sock → ctcp_sock
  | 0, sk => sk
  | n + 1, sk => ai_run wnd_cnt n (ctcp_cong_avoid_ai sk wnd_cnt)

/-! ## The friendliness loop and its fuel -/

/-- With a positive `delta`, `ack_cnt` rounds of fuel let the loop exit. -/
theorem tcp_friend_loop_returns (delta : Nat) (hd : 0 < delta) :
    ∀ (fuel ack_cnt tcp_cwnd : Nat), ack_cnt ≤ fuel →
      ∃ r, tcp_friend_loop fuel delta ack_cnt tcp_cwnd = Except.ok r ∧ r.1 ≤ delta := by
  intro fuel
  induction fuel with
  | zero =>
    intro ack_cnt tcp_cwnd h
    have h0 : ¬ ack_cnt > delta := by omega
    exact ⟨(ack_cnt, tcp_cwnd), by simp only [tcp_friend_loop, if_neg h0], by simp only; omega⟩
  | succ n ih =>
    intro ack_cnt tcp_cwnd h
    by_cases hgt : ack_cnt > delta
    · obtain ⟨r, hr, hle⟩ := ih (ack_cnt - delta) ((tcp_cwnd + 1) % U32) (by omega)
      exact ⟨r, by simp only [tcp_friend_loop, if_pos hgt, hr], hle⟩
    · exact ⟨(ack_cnt, tcp_cwnd), by simp only [tcp_friend_loop, if_neg hgt], by simp only; omega⟩

/-- With `delta = 0` and a positive `ack_cnt` the loop never exits, whatever
the fuel. -/
theorem tcp_friend_loop_diverges :
    ∀ (fuel ack_cnt tcp_cwnd : Nat), 0 < ack_cnt →
      tcp_friend_loop fuel 0 ack_cnt tcp_cwnd = Except.error ctcp_fault.no_return := by
  intro fuel
  induction fuel with
  | zero =>
    intro ack_cnt tcp_cwnd h
    simp only [tcp_friend_loop, if_pos h]
  | succ n ih =>
    intro ack_cnt tcp_cwnd h
    simp only [tcp_friend_loop, if_pos h, Nat.sub_zero]
    exact ih ack_cnt _ h

/-! ## Slow start -/

/-- Without wrap-around `ctcp_slow_start` computes `min (cwnd + acked) (ssthresh + 1)`. -/
theorem slow_start_cwnd (sk : ctcp_sock) (acked : Nat)
    (hacked : sk.snd_cwnd + acked < 2 ^ 32) (hth : sk.send_ssthresh < 2 ^ 32 - 1) :
    ctcp_slow_start sk acked =
      { sk with snd_cwnd := min (sk.snd_cwnd + acked) (sk.send_ssthresh + 1) } := by
  unfold ctcp_slow_start U32
  have h1 : (sk.snd_cwnd + acked) % 2 ^ 32 = sk.snd_cwnd + acked := Nat.mod_eq_of_lt hacked
  have h2 : (sk.send_ssthresh + 1) % 2 ^ 32 = sk.send_ssthresh + 1 :=
    Nat.mod_eq_of_lt (by omega)
  simp only [h1, h2]
  by_cases h : sk.snd_cwnd + acked > sk.send_ssthresh
  · rw [if_pos h, Nat.min_eq_right (by omega)]
  · rw [if_neg h, Nat.min_eq_left (by omega)]

/-- In slow start CUBIC's hook leaves the socket New Reno's hook leaves. -/
theorem cubic_slow_start_sock (e : Env) (t : Nat) (sk : ctcp_sock) (ca : bictcp)
    (ack acked : Nat) (hss : sk.snd_cwnd ≤ sk.send_ssthresh) :
    ∃ ca1, ctcp_bictcp_cong_avoid e t sk ca ack acked =
      Except.ok (ctcp_tcp_reno_cong_avoid sk ack acked, ca1) := by
  unfold ctcp_bictcp_cong_avoid ctcp_tcp_reno_cong_avoid
  cases hl : ctcp_is_cwnd_limited sk
  · simp only [Bool.not_false, if_true]
    exact ⟨_, rfl⟩
  · simp only [Bool.not_true, Bool.false_eq_true, if_false, if_pos hss]
    exact ⟨_, rfl⟩

/-- A run that stays in slow start gives the same windows under both
algorithms. -/
theorem cubic_trace_eq_reno (evs : List ack_event) :
    ∀ (sk : ctcp_sock) (ca : bictcp), in_slow_start sk evs →
      cubic_cwnd_trace sk ca evs = Except.ok (reno_cwnd_trace sk evs) := by
  induction evs with
  | nil => intro sk ca _; rfl
  | cons a rest ih =>
    intro sk ca h
    obtain ⟨hss, hrest⟩ := h
    obtain ⟨ca1, hca⟩ := cubic_slow_start_sock a.env a.t sk ca a.ack a.acked hss
    simp only [cubic_cwnd_trace, reno_cwnd_trace, hca, Except.bind]
    rw [ih _ ca1 hrest]

/-- C1: for a window-limited connection with `cwnd ≤ ssthresh`,
`cwnd + acked < 2^32` and `ssthresh < 2^32 - 1`, the per-ACK hooks of New Reno
and of CUBIC both leave the socket with `cwnd = min (cwnd + acked) (ssthresh + 1)`
and every other field (threshold and ack counter among them) as it was; and
over any run of calls that stays in slow start the windows CUBIC produces are
the windows New Reno produces. -/
theorem C1_slow_start_growth (e : Env) (t : Nat) (sk : ctcp_sock) (ca : bictcp)
    (ack acked : Nat)
    (hlim : sk.is_cwnd_limited = true) (hss : sk.snd_cwnd ≤ sk.send_ssthresh)
    (hacked : sk.snd_cwnd + acked < 2 ^ 32) (hth : sk.send_ssthresh < 2 ^ 32 - 1) :
    ctcp_tcp_reno_cong_avoid sk ack acked =
        { sk with snd_cwnd := min (sk.snd_cwnd + acked) (sk.send_ssthresh + 1) } ∧
      (∃ ca1, ctcp_bictcp_cong_avoid e t sk ca ack acked =
        Except.ok ({ sk with snd_cwnd := min (sk.snd_cwnd + acked) (sk.send_ssthresh + 1) }, ca1)) ∧
      (∀ evs, in_slow_start sk evs →
        cubic_cwnd_trace sk ca evs = Except.ok (reno_cwnd_trace sk evs)) := by
  have hreno : ctcp_tcp_reno_cong_avoid sk ack acked =
      { sk with snd_cwnd := min (sk.snd_cwnd + acked) (sk.send_ssthresh + 1) } := by
    rw [← slow_start_cwnd sk acked hacked hth]
    unfold ctcp_tcp_reno_cong_avoid ctcp_is_cwnd_limited
    simp only [hlim, Bool.not_true, Bool.false_eq_true, if_false, if_pos hss]
  refine ⟨hreno, ?_, fun evs h => cubic_trace_eq_reno evs sk ca h⟩
  obtain ⟨ca1, h1⟩ := cubic_slow_start_sock e t sk ca ack acked hss
  exact ⟨ca1, by rw [h1, hreno]⟩

/-- C1 at scenario A of the spec (`cwnd = 10`, `ssthresh = 1000000`) with
three segments acked: both hooks leave `cwnd = min (10 + 3) (1000000 + 1)`. -/
theorem C1_slow_start_growth_witness :
    (scenario_A.is_cwnd_limited = true ∧ scenario_A.snd_cwnd ≤ scenario_A.send_ssthresh ∧
      scenario_A.snd_cwnd + 3 < 2 ^ 32 ∧ scenario_A.send_ssthresh < 2 ^ 32 - 1) ∧
    (ctcp_tcp_reno_cong_avoid scenario_A 1 3 =
        { scenario_A with
          snd_cwnd := min (scenario_A.snd_cwnd + 3) (scenario_A.send_ssthresh + 1) } ∧
      (∃ ca1, ctcp_bictcp_cong_avoid env_5000 0 scenario_A bictcp_zero 1 3 =
        Except.ok ({ scenario_A with
          snd_cwnd := min (scenario_A.snd_cwnd + 3) (scenario_A.send_ssthresh + 1) }, ca1)) ∧
      (∀ evs, in_slow_start scenario_A evs →
        cubic_cwnd_trace scenario_A bictcp_zero evs =
          Except.ok (reno_cwnd_trace scenario_A evs))) :=
  ⟨⟨rfl, by decide, by decide, by decide⟩,
    C1_slow_start_growth env_5000 0 scenario_A bictcp_zero 1 3 rfl (by decide) (by decide)
      (by decide)⟩

/-- C2 as stated fails: with `cwnd = 10 ≤ ssthresh = 100` and the 32-bit count
`n = 2^32 - 5` the sum wraps, `ctcp_slow_start` leaves `cwnd = 5`, which is
below the old window, and below what `n = 0` gives. -/
theorem C2_counterexample :
    wrap_sock.snd_cwnd ≤ wrap_sock.send_ssthresh ∧ 4294967291 < 2 ^ 32 ∧
      (ctcp_slow_start wrap_sock 4294967291).snd_cwnd = 5 ∧
      ¬ (wrap_sock.snd_cwnd ≤ (ctcp_slow_start wrap_sock 4294967291).snd_cwnd) ∧
      ¬ ((ctcp_slow_start wrap_sock 0).snd_cwnd ≤
          (ctcp_slow_start wrap_sock 4294967291).snd_cwnd) := by
  decide

/-- C2, amended: for 32-bit `cwnd ≤ ssthresh` and 32-bit `n`, the window
`ctcp_slow_start` leaves lies in `[cwnd, ssthresh + 1]` exactly when
`cwnd + n < 2^32`; and for `n1 ≤ n2` with `cwnd + n2 < 2^32` the window for
`n1` is at most the window for `n2`. -/
theorem C2_slow_start_bounds (sk : ctcp_sock) (n1 n2 : Nat)
    (hc : sk.snd_cwnd < 2 ^ 32) (hn : n2 < 2 ^ 32)
    (hss : sk.snd_cwnd ≤ sk.send_ssthresh) (h12 : n1 ≤ n2) :
    ((sk.snd_cwnd ≤ (ctcp_slow_start sk n2).snd_cwnd ∧
        (ctcp_slow_start sk n2).snd_cwnd ≤ sk.send_ssthresh + 1) ↔
      sk.snd_cwnd + n2 < 2 ^ 32) ∧
    (sk.snd_cwnd + n2 < 2 ^ 32 →
      (ctcp_slow_start sk n1).snd_cwnd ≤ (ctcp_slow_start sk n2).snd_cwnd) := by
  simp only [ctcp_slow_start, U32]
  refine ⟨⟨fun h => ?_, fun h => ?_⟩, fun h => ?_⟩
  · by_contra hw
    have hm : (sk.snd_cwnd + n2) % 2 ^ 32 = sk.snd_cwnd + n2 - 2 ^ 32 := by omega
    rw [hm] at h
    split at h <;> omega
  · rw [Nat.mod_eq_of_lt h]
    split <;> omega
  · rw [Nat.mod_eq_of_lt h, Nat.mod_eq_of_lt (by omega : sk.snd_cwnd + n1 < 2 ^ 32)]
    split <;> split <;> omega

/-- C2 (amended) at `cwnd = 10`, `ssthresh = 100`, `n1 = 3`, `n2 = 200`. -/
theorem C2_slow_start_bounds_witness :
    (wrap_sock.snd_cwnd < 2 ^ 32 ∧ 200 < 2 ^ 32 ∧
      wrap_sock.snd_cwnd ≤ wrap_sock.send_ssthresh ∧ 3 ≤ 200) ∧
    (((wrap_sock.snd_cwnd ≤ (ctcp_slow_start wrap_sock 200).snd_cwnd ∧
        (ctcp_slow_start wrap_sock 200).snd_cwnd ≤ wrap_sock.send_ssthresh + 1) ↔
      wrap_sock.snd_cwnd + 200 < 2 ^ 32) ∧
    (wrap_sock.snd_cwnd + 200 < 2 ^ 32 →
      (ctcp_slow_start wrap_sock 3).snd_cwnd ≤ (ctcp_slow_start wrap_sock 200).snd_cwnd)) :=
  ⟨⟨by decide, by decide, by decide, by decide⟩,
    C2_slow_start_bounds wrap_sock 3 200 (by decide) (by decide) (by decide) (by decide)⟩

/-! ## Thresholds on loss -/

/-- C3: `ctcp_reno_ssthresh` returns `max (cwnd / 2) 2` for every window (0
included), so never less than 2, and hands the socket back as it was. -/
theorem C3_reno_ssthresh (sk : ctcp_sock) :
    ctcp_reno_ssthresh sk = (sk, max (sk.snd_cwnd / 2) 2) ∧
      2 ≤ (ctcp_reno_ssthresh sk).2 := by
  have h : cmax (sk.snd_cwnd >>> 1) 2 = max (sk.snd_cwnd / 2) 2 := by
    simp only [cmax, Nat.shiftRight_eq_div_pow, pow_one]
    split <;> omega
  refine ⟨?_, ?_⟩
  · simp only [ctcp_reno_ssthresh, h]
  · show 2 ≤ cmax (sk.snd_cwnd >>> 1) 2
    rw [h]
    omega

/-- C4: with `cwnd * 717 < 2^32`, `ctcp_bictcp_recalc_ssthresh` returns
`max (cwnd * 717 / 1024) 2`, leaves `loss_cwnd = cwnd` and `epoch_start = 0`,
writes no field of the private block other than these two and `last_max_cwnd`,
and hands the socket (window, threshold, ack counter) back as it was. -/
theorem C4_cubic_recalc_ssthresh (sk : ctcp_sock) (ca : bictcp)
    (h : sk.snd_cwnd * 717 < 2 ^ 32) :
    (ctcp_bictcp_recalc_ssthresh sk ca).2 = max (sk.snd_cwnd * 717 / 1024) 2 ∧
      (ctcp_bictcp_recalc_ssthresh sk ca).1.2.loss_cwnd = sk.snd_cwnd ∧
      (ctcp_bictcp_recalc_ssthresh sk ca).1.2.epoch_start = 0 ∧
      (ctcp_bictcp_recalc_ssthresh sk ca).1.2 =
        { ca with epoch_start := 0, loss_cwnd := sk.snd_cwnd,
                  last_max_cwnd := (ctcp_bictcp_recalc_ssthresh sk ca).1.2.last_max_cwnd } ∧
      (ctcp_bictcp_recalc_ssthresh sk ca).1.1 = sk := by
  refine ⟨?_, ?_, ?_, ?_, rfl⟩
  · simp only [ctcp_bictcp_recalc_ssthresh, cmax, beta, CTCP_BICTCP_BETA_SCALE, U32]
    rw [Nat.mod_eq_of_lt h]
    split <;> omega
  · simp only [ctcp_bictcp_recalc_ssthresh]
  · simp only [ctcp_bictcp_recalc_ssthresh]
    split <;> rfl
  · simp only [ctcp_bictcp_recalc_ssthresh]
    split <;> rfl

/-- C4 at scenario B of the spec, `cwnd = 100`: the returned threshold is
`max (100 * 717 / 1024) 2`, which is 70, and `loss_cwnd` becomes 100. -/
theorem C4_cubic_recalc_ssthresh_witness :
    scenario_B.snd_cwnd * 717 < 2 ^ 32 ∧
    ((ctcp_bictcp_recalc_ssthresh scenario_B bictcp_after_loss).2 =
        max (scenario_B.snd_cwnd * 717 / 1024) 2 ∧
      (ctcp_bictcp_recalc_ssthresh scenario_B bictcp_after_loss).1.2.loss_cwnd =
        scenario_B.snd_cwnd ∧
      (ctcp_bictcp_recalc_ssthresh scenario_B bictcp_after_loss).1.2.epoch_start = 0 ∧
      (ctcp_bictcp_recalc_ssthresh scenario_B bictcp_after_loss).1.2 =
        { bictcp_after_loss with
            epoch_start := 0, loss_cwnd := scenario_B.snd_cwnd,
            last_max_cwnd :=
              (ctcp_bictcp_recalc_ssthresh scenario_B bictcp_after_loss).1.2.last_max_cwnd } ∧
      (ctcp_bictcp_recalc_ssthresh scenario_B bictcp_after_loss).1.1 = scenario_B) ∧
    (ctcp_bictcp_recalc_ssthresh scenario_B bictcp_after_loss).2 = 70 :=
  ⟨by decide, C4_cubic_recalc_ssthresh scenario_B bictcp_after_loss (by decide), by decide⟩

/-- C5 as stated fails: with `cwnd = 100 < last_max_cwnd = 200` the fast
convergence branch leaves `last_max_cwnd = 100 * 1741 / 2048 = 85`, which is
below `cwnd`. -/
theorem C5_counterexample :
    scenario_B.snd_cwnd < bictcp_after_loss.last_max_cwnd ∧
      (ctcp_bictcp_recalc_ssthresh scenario_B bictcp_after_loss).1.2.last_max_cwnd = 85 ∧
      ¬ (scenario_B.snd_cwnd ≤
          (ctcp_bictcp_recalc_ssthresh scenario_B bictcp_after_loss).1.2.last_max_cwnd) := by
  decide

/-- C5, amended: with `cwnd < last_max_cwnd`, `ctcp_bictcp_recalc_ssthresh`
leaves `last_max_cwnd = ((cwnd * 1741) mod 2^32) / 2048`, which is strictly
less than the old `last_max_cwnd` and at most `cwnd`. -/
theorem C5_fast_convergence (sk : ctcp_sock) (ca : bictcp)
    (h : sk.snd_cwnd < ca.last_max_cwnd) :
    (ctcp_bictcp_recalc_ssthresh sk ca).1.2.last_max_cwnd =
        (sk.snd_cwnd * 1741) % 2 ^ 32 / 2048 ∧
      (ctcp_bictcp_recalc_ssthresh sk ca).1.2.last_max_cwnd < ca.last_max_cwnd ∧
      (ctcp_bictcp_recalc_ssthresh sk ca).1.2.last_max_cwnd ≤ sk.snd_cwnd := by
  have hv : (ctcp_bictcp_recalc_ssthresh sk ca).1.2.last_max_cwnd =
      (sk.snd_cwnd * 1741) % 2 ^ 32 / 2048 := by
    simp only [ctcp_bictcp_recalc_ssthresh, CTCP_FAST_CONVERGENCE, CTCP_BICTCP_BETA_SCALE, beta, U32]
    rw [if_pos ⟨h, by decide⟩]
    rfl
  have hle : (sk.snd_cwnd * 1741) % 2 ^ 32 / 2048 ≤ sk.snd_cwnd := by
    by_cases hb : sk.snd_cwnd * 1741 < 2 ^ 32
    · rw [Nat.mod_eq_of_lt hb]
      omega
    · have hm : (sk.snd_cwnd * 1741) % 2 ^ 32 < 2 ^ 32 := Nat.mod_lt _ (by decide)
      omega
  rw [hv]
  exact ⟨rfl, by omega, hle⟩

/-- C5 (amended) at `cwnd = 100`, `last_max_cwnd = 200`. -/
theorem C5_fast_convergence_witness :
    scenario_B.snd_cwnd < bictcp_after_loss.last_max_cwnd ∧
    ((ctcp_bictcp_recalc_ssthresh scenario_B bictcp_after_loss).1.2.last_max_cwnd =
        (scenario_B.snd_cwnd * 1741) % 2 ^ 32 / 2048 ∧
      (ctcp_bictcp_recalc_ssthresh scenario_B bictcp_after_loss).1.2.last_max_cwnd <
        bictcp_after_loss.last_max_cwnd ∧
      (ctcp_bictcp_recalc_ssthresh scenario_B bictcp_after_loss).1.2.last_max_cwnd ≤
        scenario_B.snd_cwnd) :=
  ⟨by decide, C5_fast_convergence scenario_B bictcp_after_loss (by decide)⟩

/-! ## Undo and loss -/

/-- C6: `ctcp_bictcp_undo_cwnd` returns `max cwnd loss_cwnd`, hence never less
than the window at the time of the call, and hands socket and private block
back as they were. -/
theorem C6_undo_cwnd (sk : ctcp_sock) (ca : bictcp) :
    ctcp_bictcp_undo_cwnd sk ca = ((sk, ca), max sk.snd_cwnd ca.loss_cwnd) ∧
      sk.snd_cwnd ≤ (ctcp_bictcp_undo_cwnd sk ca).2 := by
  have h : cmax sk.snd_cwnd ca.loss_cwnd = max sk.snd_cwnd ca.loss_cwnd := by
    simp only [cmax]
    split <;> omega
  refine ⟨?_, ?_⟩
  · simp only [ctcp_bictcp_undo_cwnd, h]
  · show sk.snd_cwnd ≤ cmax sk.snd_cwnd ca.loss_cwnd
    rw [h]
    omega

/-- C8: when `is_cwnd_limited` is false the per-ACK hooks of New Reno and of
CUBIC return with the socket and the whole private block (window, threshold,
ack counter, `cnt`, `ack_cnt`, epoch, curve and Hystart fields) as they were. -/
theorem C8_not_cwnd_limited (e : Env) (t : Nat) (sk : ctcp_sock) (ca : bictcp)
    (ack acked : Nat) (hlim : sk.is_cwnd_limited = false) :
    ctcp_tcp_reno_cong_avoid sk ack acked = sk ∧
      ctcp_bictcp_cong_avoid e t sk ca ack acked = Except.ok (sk, ca) := by
  unfold ctcp_tcp_reno_cong_avoid ctcp_bictcp_cong_avoid ctcp_is_cwnd_limited
  simp only [hlim, Bool.not_false, if_true, and_self]

/-- C8 at scenario A with `is_cwnd_limited = false`, on a block in the middle of
an epoch. -/
theorem C8_not_cwnd_limited_witness :
    scenario_A_idle.is_cwnd_limited = false ∧
    (ctcp_tcp_reno_cong_avoid scenario_A_idle 1 3 = scenario_A_idle ∧
      ctcp_bictcp_cong_avoid env_5000 0 scenario_A_idle bictcp_after_loss 1 3 =
        Except.ok (scenario_A_idle, bictcp_after_loss)) :=
  ⟨rfl, C8_not_cwnd_limited env_5000 0 scenario_A_idle bictcp_after_loss 1 3 rfl⟩

/-! ## Per-segment acknowledgements -/

/-- Below the Hystart low-window threshold `ctcp_bictcp_acked` does not reach
`ctcp_hystart_update`: the socket comes back as it was and `found` keeps its
value. -/
theorem acked_low_window (e : Env) (sk : ctcp_sock) (ca : bictcp) (cnt : Nat) (rtt_us : Int)
    (h : sk.snd_cwnd < 16) :
    (ctcp_bictcp_acked e sk ca cnt rtt_us).1 = sk ∧
      (ctcp_bictcp_acked e sk ca cnt rtt_us).2.found = ca.found := by
  have hno : ¬ (CTCP_HYSTART_ON ≠ 0 ∧ sk.snd_cwnd ≤ sk.send_ssthresh ∧
      sk.snd_cwnd ≥ CTCP_HYSTART_LOW_WINDOW) := by
    simp only [CTCP_HYSTART_LOW_WINDOW]
    omega
  unfold ctcp_bictcp_acked
  simp only [if_neg hno]
  refine ⟨?_, ?_⟩ <;> (repeat' split) <;> rfl

/-- C9: with `cwnd < 16`, for every count, RTT sample, clock value and private
block, `ctcp_bictcp_acked` leaves `found` and `ssthresh` (indeed the whole
socket) as they were; and over any run of `ctcp_bictcp_acked` calls, each made
with a window below 16, `found` keeps its initial value, so from `found = 0`
neither AckTrain nor Delay is ever set. -/
theorem C9_hystart_low_window (e : Env) (sk : ctcp_sock) (ca : bictcp) (cnt : Nat)
    (rtt_us : Int) (h : sk.snd_cwnd < 16) :
    (ctcp_bictcp_acked e sk ca cnt rtt_us).2.found = ca.found ∧
      (ctcp_bictcp_acked e sk ca cnt rtt_us).1.send_ssthresh = sk.send_ssthresh ∧
      (ctcp_bictcp_acked e sk ca cnt rtt_us).1 = sk ∧
      (∀ evs : List acked_event, (∀ a ∈ evs, a.sk.snd_cwnd < 16) →
        (acked_run ca evs).found = ca.found ∧
          (ca.found = 0 →
            (acked_run ca evs).found &&& (CTCP_HYSTART_ACK_TRAIN ||| CTCP_HYSTART_DELAY) = 0)) := by
  obtain ⟨h1, h2⟩ := acked_low_window e sk ca cnt rtt_us h
  refine ⟨h2, by rw [h1], h1, ?_⟩
  intro evs
  have key : ∀ (l : List acked_event) (c : bictcp), (∀ a ∈ l, a.sk.snd_cwnd < 16) →
      (acked_run c l).found = c.found := by
    intro l
    induction l with
    | nil => intro c _; rfl
    | cons a rest ih =>
      intro c hall
      have ha : a.sk.snd_cwnd < 16 := hall a (List.mem_cons_self a rest)
      have hr : ∀ b ∈ rest, b.sk.snd_cwnd < 16 := fun b hb => hall b (List.mem_cons_of_mem a hb)
      simp only [acked_run]
      rw [ih _ hr]
      exact (acked_low_window a.env a.sk c a.cnt a.rtt_us ha).2
  intro hall
  refine ⟨key evs ca hall, fun h0 => ?_⟩
  rw [key evs ca hall, h0]
  rfl

/-- C9 at `cwnd = 15`, on a block whose delay test would fire if Hystart were
consulted, with an RTT sample of 75000 us. -/
theorem C9_hystart_low_window_witness :
    low_window_sock.snd_cwnd < 16 ∧
    ((ctcp_bictcp_acked env_5000 low_window_sock bictcp_delay_ready 1 75000).2.found =
        bictcp_delay_ready.found ∧
      (ctcp_bictcp_acked env_5000 low_window_sock bictcp_delay_ready 1 75000).1.send_ssthresh =
        low_window_sock.send_ssthresh ∧
      (ctcp_bictcp_acked env_5000 low_window_sock bictcp_delay_ready 1 75000).1 =
        low_window_sock ∧
      (∀ evs : List acked_event, (∀ a ∈ evs, a.sk.snd_cwnd < 16) →
        (acked_run bictcp_delay_ready evs).found = bictcp_delay_ready.found ∧
          (bictcp_delay_ready.found = 0 →
            (acked_run bictcp_delay_ready evs).found &&&
              (CTCP_HYSTART_ACK_TRAIN ||| CTCP_HYSTART_DELAY) = 0))) :=
  ⟨by decide, C9_hystart_low_window env_5000 low_window_sock bictcp_delay_ready 1 75000
    (by decide)⟩

/-- A negative sample makes `ctcp_bictcp_acked` return at its first `return`:
only `delayed_ack` can differ, and only on an `Open` connection. -/
theorem acked_negative_rtt (e : Env) (sk : ctcp_sock) (ca : bictcp) (cnt : Nat) (rtt_us : Int)
    (h : rtt_us < 0) :
    ∃ d, ctcp_bictcp_acked e sk ca cnt rtt_us = (sk, { ca with delayed_ack := d }) ∧
      (sk.ca_state ≠ ctcp_ca_state.CTCP_CA_OPEN → d = ca.delayed_ack) := by
  unfold ctcp_bictcp_acked
  simp only [if_pos h]
  by_cases ho : ctcp_ca_state.CTCP_CA_OPEN = sk.ca_state
  · rw [if_pos ho]
    exact ⟨_, rfl, fun hn => absurd ho.symm hn⟩
  · rw [if_neg ho]
    exact ⟨ca.delayed_ack, rfl, fun _ => rfl⟩

/-- C10: for `rtt_us < 0`, `ctcp_bictcp_acked` returns right after the
delayed-ACK estimate: the socket (threshold included) is as it was and no
field of the private block other than `delayed_ack` is written, so
`delay_min`, `curr_rtt`, `sample_cnt`, `last_ack`, `round_start` and `found`
keep their values; and unless `ca_state` is `Open` the block is unchanged
altogether. -/
theorem C10_negative_rtt (e : Env) (sk : ctcp_sock) (ca : bictcp) (cnt : Nat) (rtt_us : Int)
    (h : rtt_us < 0) :
    (ctcp_bictcp_acked e sk ca cnt rtt_us).1 = sk ∧
      (ctcp_bictcp_acked e sk ca cnt rtt_us).2 =
        { ca with delayed_ack := (ctcp_bictcp_acked e sk ca cnt rtt_us).2.delayed_ack } ∧
      ((ctcp_bictcp_acked e sk ca cnt rtt_us).2.delay_min = ca.delay_min ∧
        (ctcp_bictcp_acked e sk ca cnt rtt_us).2.curr_rtt = ca.curr_rtt ∧
        (ctcp_bictcp_acked e sk ca cnt rtt_us).2.sample_cnt = ca.sample_cnt ∧
        (ctcp_bictcp_acked e sk ca cnt rtt_us).2.last_ack = ca.last_ack ∧
        (ctcp_bictcp_acked e sk ca cnt rtt_us).2.round_start = ca.round_start ∧
        (ctcp_bictcp_acked e sk ca cnt rtt_us).2.found = ca.found) ∧
      (sk.ca_state ≠ ctcp_ca_state.CTCP_CA_OPEN →
        (ctcp_bictcp_acked e sk ca cnt rtt_us).2 = ca) := by
  obtain ⟨d, hd, hn⟩ := acked_negative_rtt e sk ca cnt rtt_us h
  rw [hd]
  refine ⟨rfl, rfl, ⟨rfl, rfl, rfl, rfl, rfl, rfl⟩, fun hs => ?_⟩
  show { ca with delayed_ack := d } = ca
  rw [hn hs]

/-- C10 at an `Open` connection with window 100 and the sample `-1`. -/
theorem C10_negative_rtt_witness :
    (-1 : Int) < 0 ∧
    ((ctcp_bictcp_acked env_5000 scenario_B bictcp_delay_ready 3 (-1)).1 = scenario_B ∧
      (ctcp_bictcp_acked env_5000 scenario_B bictcp_delay_ready 3 (-1)).2 =
        { bictcp_delay_ready with
            delayed_ack :=
              (ctcp_bictcp_acked env_5000 scenario_B bictcp_delay_ready 3 (-1)).2.delayed_ack } ∧
      ((ctcp_bictcp_acked env_5000 scenario_B bictcp_delay_ready 3 (-1)).2.delay_min =
          bictcp_delay_ready.delay_min ∧
        (ctcp_bictcp_acked env_5000 scenario_B bictcp_delay_ready 3 (-1)).2.curr_rtt =
          bictcp_delay_ready.curr_rtt ∧
        (ctcp_bictcp_acked env_5000 scenario_B bictcp_delay_ready 3 (-1)).2.sample_cnt =
          bictcp_delay_ready.sample_cnt ∧
        (ctcp_bictcp_acked env_5000 scenario_B bictcp_delay_ready 3 (-1)).2.last_ack =
          bictcp_delay_ready.last_ack ∧
        (ctcp_bictcp_acked env_5000 scenario_B bictcp_delay_ready 3 (-1)).2.round_start =
          bictcp_delay_ready.round_start ∧
        (ctcp_bictcp_acked env_5000 scenario_B bictcp_delay_ready 3 (-1)).2.found =
          bictcp_delay_ready.found) ∧
      (scenario_B.ca_state ≠ ctcp_ca_state.CTCP_CA_OPEN →
        (ctcp_bictcp_acked env_5000 scenario_B bictcp_delay_ready 3 (-1)).2 =
          bictcp_delay_ready)) :=
  ⟨by decide, C10_negative_rtt env_5000 scenario_B bictcp_delay_ready 3 (-1) (by decide)⟩

/-! ## The cube root is total -/

/-- No digits, no bits. -/
theorem fls_bits_zero (n : Nat) : fls_bits n 0 = 0 := by
  cases n <;> simp [fls_bits]

/-- For a non-zero `a` of at most `n` binary digits, `fls_bits n a` is the
number of its digits. -/
theorem fls_bits_bounds : ∀ (n a : Nat), a < 2 ^ n → a ≠ 0 →
    1 ≤ fls_bits n a ∧ fls_bits n a ≤ n ∧
      2 ^ (fls_bits n a - 1) ≤ a ∧ a < 2 ^ fls_bits n a := by
  intro n
  induction n with
  | zero =>
    intro a h h0
    simp only [pow_zero] at h
    omega
  | succ n ih =>
    intro a h h0
    have hstep : fls_bits (n + 1) a = fls_bits n (a / 2) + 1 := by
      simp only [fls_bits, if_neg h0]
    rw [hstep]
    have h2 : a / 2 < 2 ^ n := by
      have : 2 ^ (n + 1) = 2 * 2 ^ n := by rw [pow_succ]; ring
      omega
    by_cases hz : a / 2 = 0
    · rw [hz, fls_bits_zero]
      have ha1 : a = 1 := by omega
      subst ha1
      simp
    · obtain ⟨k1, kn, klo, khi⟩ := ih (a / 2) h2 hz
      refine ⟨by omega, by omega, ?_, ?_⟩
      · have e1 : fls_bits n (a / 2) + 1 - 1 = (fls_bits n (a / 2) - 1) + 1 := by omega
        rw [e1, pow_succ]
        omega
      · rw [pow_succ]
        omega

/-- The bit length of a 64-bit value of at least 64 is between 7 and 64 and
brackets the value. -/
theorem fls64_bounds (a : Nat) (h64 : 64 ≤ a) (ha : a < 2 ^ 64) :
    7 ≤ fls64 a ∧ fls64 a ≤ 64 ∧ 2 ^ (fls64 a - 1) ≤ a ∧ a < 2 ^ fls64 a := by
  obtain ⟨_, hn, hlo, hhi⟩ := fls_bits_bounds 64 a ha (by omega)
  refine ⟨?_, hn, hlo, hhi⟩
  by_contra hlt
  have h6 : fls_bits 64 a ≤ 6 := by unfold fls64 at hlt; omega
  have : 2 ^ fls_bits 64 a ≤ 2 ^ 6 := Nat.pow_le_pow_right (by decide) h6
  omega

/-- Below 64 the bit length is below 7. -/
theorem fls64_small (a : Nat) (h : a ≤ 63) : fls64 a < 7 := by
  interval_cases a <;> decide

/-- The table entries read by the Newton-Raphson path. -/
theorem v_at_upper (idx : Nat) (h8 : 8 ≤ idx) (h63 : idx ≤ 63) :
    ∃ y, v_at idx = Except.ok y ∧ 123 ≤ y ∧ y ≤ 254 := by
  interval_cases idx <;> exact ⟨_, rfl, by decide, by decide⟩

/-- Binding a returned value applies the continuation. -/
theorem except_bind_ok {ε α β : Type} (x : α) (f : α → Except ε β) :
    (Except.ok x : Except ε α).bind f = f x := rfl

/-- On the Newton-Raphson path `ctcp_cubic_root` is a table read, a division
and one Newton-Raphson step. -/
theorem cubic_root_unfold (a : Nat) (h : ¬ fls64 a < 7) :
    ctcp_cubic_root a =
      (v_at ((a >>> ((root_shift a * 3) % U32)) % U32)).bind (fun y =>
        (udiv a (root_divisor (root_start y (root_shift a)))).bind (fun q =>
          Except.ok (root_newton (root_start y (root_shift a)) q))) := by
  unfold ctcp_cubic_root
  rw [if_neg h]
  rfl

/-- The shape of `ctcp_cubic_root` on the Newton-Raphson path: the shift, the
table index, the first estimate and the divisor are in range, and the result is
one Newton-Raphson step from the first estimate. -/
theorem cubic_root_newton (a : Nat) (h64 : 64 ≤ a) (ha : a < 2 ^ 64) :
    ∃ y, root_shift a = (fls64 a * 84) >>> 8 - 1 ∧
      1 ≤ root_shift a ∧ root_shift a ≤ 20 ∧
      root_shift a * 3 + 4 ≤ fls64 a ∧ fls64 a ≤ root_shift a * 3 + 6 ∧
      8 ≤ a >>> (3 * root_shift a) ∧ a >>> (3 * root_shift a) ≤ 63 ∧
      v_at (a >>> (3 * root_shift a)) = Except.ok y ∧ 123 ≤ y ∧ y ≤ 254 ∧
      4 ≤ root_start y (root_shift a) ∧ root_start y (root_shift a) < 2 ^ 23 ∧
      root_divisor (root_start y (root_shift a)) =
        root_start y (root_shift a) * (root_start y (root_shift a) - 1) ∧
      root_divisor (root_start y (root_shift a)) ≠ 0 ∧
      ctcp_cubic_root a = Except.ok
        (root_newton (root_start y (root_shift a))
          (a / root_divisor (root_start y (root_shift a)))) := by
  obtain ⟨hb7, hb64, hlo, hhi⟩ := fls64_bounds a h64 ha
  have hs : root_shift a = (fls64 a * 84) >>> 8 - 1 := by
    simp only [root_shift, U32, Nat.shiftRight_eq_div_pow]
    rw [Nat.mod_eq_of_lt (by omega : fls64 a * 84 < 2 ^ 32)]
    have h1 : 1 ≤ fls64 a * 84 / 2 ^ 8 := by omega
    have h2 : fls64 a * 84 / 2 ^ 8 ≤ 21 := by omega
    generalize fls64 a * 84 / 2 ^ 8 = k at *
    omega
  have hs' : root_shift a = fls64 a * 84 / 256 - 1 := by
    rw [hs, Nat.shiftRight_eq_div_pow]
  have hs1 : 1 ≤ root_shift a := by omega
  have hs20 : root_shift a ≤ 20 := by omega
  have hsl : root_shift a * 3 + 4 ≤ fls64 a := by omega
  have hsu : fls64 a ≤ root_shift a * 3 + 6 := by omega
  have hpos : 0 < 2 ^ (3 * root_shift a) := Nat.two_pow_pos _
  have hi8 : 8 ≤ a >>> (3 * root_shift a) := by
    rw [Nat.shiftRight_eq_div_pow, Nat.le_div_iff_mul_le hpos]
    have h1 : 2 ^ (3 * root_shift a + 3) ≤ 2 ^ (fls64 a - 1) :=
      Nat.pow_le_pow_right (by decide) (by omega)
    have h2 : 2 ^ (3 * root_shift a + 3) = 8 * 2 ^ (3 * root_shift a) := by rw [pow_add]; ring
    omega
  have hi63 : a >>> (3 * root_shift a) ≤ 63 := by
    rw [Nat.shiftRight_eq_div_pow]
    have h1 : 2 ^ fls64 a ≤ 2 ^ (3 * root_shift a + 6) :=
      Nat.pow_le_pow_right (by decide) (by omega)
    have h2 : 2 ^ (3 * root_shift a + 6) = 64 * 2 ^ (3 * root_shift a) := by rw [pow_add]; ring
    have h3 : a / 2 ^ (3 * root_shift a) < 64 := (Nat.div_lt_iff_lt_mul hpos).mpr (by omega)
    omega
  obtain ⟨y, hy, hy1, hy2⟩ := v_at_upper _ hi8 hi63
  have hp2 : 2 ^ 1 ≤ 2 ^ root_shift a := Nat.pow_le_pow_right (by decide) hs1
  have hp20 : 2 ^ root_shift a ≤ 2 ^ 20 := Nat.pow_le_pow_right (by decide) hs20
  have hz1 : 133 * 2 ^ 1 ≤ (y + 10) * 2 ^ root_shift a := Nat.mul_le_mul (by omega) hp2
  have hz2 : (y + 10) * 2 ^ root_shift a ≤ 264 * 2 ^ 20 := Nat.mul_le_mul (by omega) hp20
  have hx : root_start y (root_shift a) = (y + 10) * 2 ^ root_shift a / 2 ^ 6 := by
    simp only [root_start, U32, Nat.shiftLeft_eq, Nat.shiftRight_eq_div_pow]
    rw [Nat.mod_eq_of_lt (by omega)]
  have hx4 : 4 ≤ root_start y (root_shift a) := by rw [hx]; omega
  have hx23 : root_start y (root_shift a) < 2 ^ 23 := by rw [hx]; omega
  have hm1 : (root_start y (root_shift a) + U32 - 1) % U32 = root_start y (root_shift a) - 1 := by
    simp only [U32]; omega
  have hprod : root_start y (root_shift a) * (root_start y (root_shift a) - 1) < 2 ^ 23 * 2 ^ 23 :=
    Nat.mul_lt_mul'' hx23 (by omega)
  have hd : root_divisor (root_start y (root_shift a)) =
      root_start y (root_shift a) * (root_start y (root_shift a) - 1) := by
    simp only [root_divisor, hm1, U64]
    exact Nat.mod_eq_of_lt (by omega)
  have hd0 : root_divisor (root_start y (root_shift a)) ≠ 0 := by
    rw [hd]
    have : 4 * 3 ≤ root_start y (root_shift a) * (root_start y (root_shift a) - 1) :=
      Nat.mul_le_mul hx4 (by omega)
    omega
  refine ⟨y, hs, hs1, hs20, hsl, hsu, hi8, hi63, hy, hy1, hy2, hx4, hx23, hd, hd0, ?_⟩
  have hidx : (a >>> ((root_shift a * 3) % U32)) % U32 = a >>> (3 * root_shift a) := by
    have e1 : (root_shift a * 3) % U32 = 3 * root_shift a := by simp only [U32]; omega
    rw [e1]
    simp only [U32]
    omega
  have hu : udiv a (root_divisor (root_start y (root_shift a))) =
      Except.ok (a / root_divisor (root_start y (root_shift a))) := by
    unfold udiv
    rw [if_neg hd0]
  have hb : ¬ fls64 a < 7 := by omega
  rw [cubic_root_unfold a hb, hidx, hy, except_bind_ok, hu, except_bind_ok]

/-- On the table path the result is `(v[a] + 35) >> 6`. -/
theorem cubic_root_table (a : Nat) (h : a ≤ 63) :
    ∃ y, v[a]? = some y ∧ ctcp_cubic_root a = Except.ok ((y + 35) >>> 6) := by
  interval_cases a <;> exact ⟨_, rfl, rfl⟩

/-- C20: `ctcp_cubic_root` returns a value for every 64-bit input. For
`a ≤ 63` the table path is taken and the index `a` is inside the 64-entry
table; for `a ≥ 64` the Newton-Raphson path is taken, the table index
`a >> (3 * (((fls64(a) * 84) >> 8) - 1))` lies in `[8, 63]`, the first estimate
`x` is at least 2 and the divisor `x * (x - 1)` is not zero. -/
theorem C20_cubic_root_total (a : Nat) (ha : a < 2 ^ 64) :
    (∃ r, ctcp_cubic_root a = Except.ok r) ∧
    (a ≤ 63 → fls64 a < 7 ∧ a % U32 < v.length) ∧
    (64 ≤ a → 7 ≤ fls64 a ∧
      8 ≤ a >>> (3 * ((fls64 a * 84) >>> 8 - 1)) ∧
      a >>> (3 * ((fls64 a * 84) >>> 8 - 1)) ≤ 63 ∧
      ∃ y, v_at (a >>> (3 * ((fls64 a * 84) >>> 8 - 1))) = Except.ok y ∧
        2 ≤ root_start y ((fls64 a * 84) >>> 8 - 1) ∧
        root_divisor (root_start y ((fls64 a * 84) >>> 8 - 1)) ≠ 0) := by
  refine ⟨?_, fun h => ?_, fun h => ?_⟩
  · by_cases h : a ≤ 63
    · obtain ⟨y, _, hy⟩ := cubic_root_table a h
      exact ⟨_, hy⟩
    · obtain ⟨y, h1⟩ := cubic_root_newton a (by omega) ha
      exact ⟨_, h1.2.2.2.2.2.2.2.2.2.2.2.2.2.2⟩
  · refine ⟨fls64_small a h, ?_⟩
    have : v.length = 64 := rfl
    simp only [U32]
    omega
  · obtain ⟨y, hs, _, _, _, _, hi8, hi63, hy, _, _, hx4, _, _, hd0, _⟩ :=
      cubic_root_newton a h ha
    rw [← hs]
    exact ⟨(fls64_bounds a h ha).1, hi8, hi63, y, hy, by omega, hd0⟩

/-- C20 at `a = 2681735677 * 100`, the argument of the cube root when the window
is 100 below the last maximum. -/
theorem C20_cubic_root_total_witness :
    268173567700 < 2 ^ 64 ∧
    ((∃ r, ctcp_cubic_root 268173567700 = Except.ok r) ∧
    (268173567700 ≤ 63 → fls64 268173567700 < 7 ∧ 268173567700 % U32 < v.length) ∧
    (64 ≤ 268173567700 → 7 ≤ fls64 268173567700 ∧
      8 ≤ 268173567700 >>> (3 * ((fls64 268173567700 * 84) >>> 8 - 1)) ∧
      268173567700 >>> (3 * ((fls64 268173567700 * 84) >>> 8 - 1)) ≤ 63 ∧
      ∃ y, v_at (268173567700 >>> (3 * ((fls64 268173567700 * 84) >>> 8 - 1))) = Except.ok y ∧
        2 ≤ root_start y ((fls64 268173567700 * 84) >>> 8 - 1) ∧
        root_divisor (root_start y ((fls64 268173567700 * 84) >>> 8 - 1)) ≠ 0)) :=
  ⟨by decide, C20_cubic_root_total 268173567700 (by decide)⟩

/-! ## The error of the cube root -/

/-- A table read that succeeds returns the entry. -/
theorem v_at_getD (i y : Nat) (h : v_at i = Except.ok y) : v.getD i 0 = y := by
  unfold v_at at h
  rw [List.getD_eq_getElem?_getD]
  cases hv : v[i]? with
  | none => rw [hv] at h; cases h
  | some z =>
    rw [hv] at h
    cases h
    rfl

/-- The 1% bound as two inequalities. -/
theorem cube_error_iff (r a : Nat) :
    100 * cube_error r a < a ↔ 100 * r ^ 3 < 101 * a ∧ 99 * a < 100 * r ^ 3 := by
  unfold cube_error
  split <;> omega

/-- Soundness of `root_check_q`. -/
theorem root_check_q_sound (x d clo chi q a : Nat)
    (hc : root_check_q x d clo chi q = true) (hd : 0 < d)
    (h1 : clo ≤ a) (h2 : a ≤ chi) (hq : a / d = q) :
    100 * cube_error (root_newton x q) a < a := by
  rw [cube_error_iff]
  simp only [root_check_q, Bool.and_eq_true, decide_eq_true_eq] at hc
  have hlo : q * d ≤ a := by rw [← hq]; exact Nat.div_mul_le_self a d
  have hhi : a < q * d + d := by
    rw [← hq]
    have := Nat.lt_div_mul_add hd (a := a)
    omega
  generalize root_newton x q ^ 3 = c at *
  generalize q * d = m at *
  omega

/-- Soundness of `root_check_cell`. -/
theorem root_check_cell_sound (A L bp idx a : Nat)
    (hc : root_check_cell A L bp idx = true)
    (hd : 0 < root_divisor (root_start (v.getD idx 0) bp))
    (h1 : A ≤ a) (h2 : a < L) (hidx : a >>> (3 * bp) = idx) :
    100 * cube_error
      (root_newton (root_start (v.getD idx 0) bp)
        (a / root_divisor (root_start (v.getD idx 0) bp))) a < a := by
  have hpos : 0 < 2 ^ (3 * bp) := Nat.two_pow_pos _
  rw [Nat.shiftRight_eq_div_pow] at hidx
  have hlo : idx * 2 ^ (3 * bp) ≤ a := by rw [← hidx]; exact Nat.div_mul_le_self a _
  have hhi : a < idx * 2 ^ (3 * bp) + 2 ^ (3 * bp) := by
    rw [← hidx]
    have := Nat.lt_div_mul_add hpos (a := a)
    omega
  have hclo : max (idx <<< (3 * bp)) A ≤ a := by
    rw [Nat.shiftLeft_eq]
    omega
  have hchi : a ≤ min ((idx + 1) <<< (3 * bp) - 1) (L - 1) := by
    rw [Nat.shiftLeft_eq, Nat.add_mul, Nat.one_mul]
    omega
  simp only [root_check_cell, Bool.or_eq_true, decide_eq_true_eq, List.all_eq_true,
    List.mem_range] at hc
  rcases hc with hc | hc
  · omega
  · generalize root_divisor (root_start (v.getD idx 0) bp) = d at *
    generalize max (idx <<< (3 * bp)) A = clo at *
    generalize min ((idx + 1) <<< (3 * bp) - 1) (L - 1) = chi at *
    have hd1 : clo / d ≤ a / d := Nat.div_le_div_right hclo
    have hd2 : a / d ≤ chi / d := Nat.div_le_div_right hchi
    have hk := hc (a / d - clo / d) (by omega)
    have e : clo / d + (a / d - clo / d) = a / d := by omega
    rw [e] at hk
    exact root_check_q_sound _ d clo chi (a / d) a hk hd hclo hchi rfl

/-- The interval check passes on `[43683120, 2^40)`. -/
theorem root_check_passes : root_check 43683120 (2 ^ 40) = true := by
  decide!

/-- From 43683120 up to `2^40` the cube of the result is within 1% of `a`. -/
theorem cubic_root_percent (a : Nat) (h1 : 43683120 ≤ a) (h2 : a < 2 ^ 40) :
    ∃ r, ctcp_cubic_root a = Except.ok r ∧ 100 * cube_error r a < a := by
  have ha : a < 2 ^ 64 := by omega
  obtain ⟨hb7, hb64, hlo, hhi⟩ := fls64_bounds a (by omega) ha
  obtain ⟨y, hs, _, _, _, _, hi8, hi63, hy, _, _, _, _, _, hd0, hr⟩ :=
    cubic_root_newton a (by omega) ha
  have hb26 : 26 ≤ fls64 a := by
    by_contra hlt
    have : 2 ^ fls64 a ≤ 2 ^ 25 := Nat.pow_le_pow_right (by decide) (by omega)
    omega
  have hb40 : fls64 a ≤ 40 := by
    by_contra hgt
    have : 2 ^ 40 ≤ 2 ^ (fls64 a - 1) := Nat.pow_le_pow_right (by decide) (by omega)
    omega
  rw [Nat.shiftRight_eq_div_pow] at hs
  have hbp7 : 7 ≤ root_shift a := by omega
  have hbp12 : root_shift a ≤ 12 := by omega
  have hall := root_check_passes
  simp only [root_check, List.all_eq_true, List.mem_range] at hall
  have hcell := hall (root_shift a - 7) (by omega) (a >>> (3 * root_shift a) - 8) (by omega)
  have e1 : 7 + (root_shift a - 7) = root_shift a := by omega
  have e2 : 8 + (a >>> (3 * root_shift a) - 8) = a >>> (3 * root_shift a) := by omega
  rw [e1, e2] at hcell
  have hyv := v_at_getD _ y hy
  have hsound := root_check_cell_sound 43683120 (2 ^ 40) (root_shift a)
    (a >>> (3 * root_shift a)) a hcell (by rw [hyv]; omega) h1 h2 rfl
  rw [hyv] at hsound
  exact ⟨_, hr, hsound⟩

/-- C11 as stated fails. On the table path `a = 2` gives `r = 1`, not exact
and 50% off; `a = 0` gives `r = 0`, for which `100 * 0 < 0` cannot hold; and on
the Newton-Raphson path `a = 43683119` gives `r = 351` with
`100 * |351^3 - a| = 43956800 > a`. -/
theorem C11_counterexample :
    ctcp_cubic_root 2 = Except.ok 1 ∧ 1 ^ 3 ≠ 2 ∧ ¬ (100 * cube_error 1 2 < 2) ∧
      ctcp_cubic_root 0 = Except.ok 0 ∧ ¬ (100 * cube_error 0 0 < 0) ∧
      (43683119 : Nat) < 2 ^ 40 ∧ ctcp_cubic_root 43683119 = Except.ok 351 ∧
      ¬ (100 * cube_error 351 43683119 < 43683119) := by
  decide

/-- C11, amended: for every `a` in `[43683120, 2^40)` the result `r` has
`100 * |r^3 - a| < a`; and for every `a` in `[0, 63]` the table path returns
the cube root to within one, `a < (r + 1)^3` and `(r - 1)^3 < a` unless
`r = 0`, exact (`r^3 = a`) precisely at the cubes 0, 1, 8 and 27. -/
theorem C11_cubic_root_error (a : Nat) :
    (43683120 ≤ a → a < 2 ^ 40 →
      ∃ r, ctcp_cubic_root a = Except.ok r ∧ 100 * cube_error r a < a) ∧
    (a ≤ 63 →
      ∃ r, ctcp_cubic_root a = Except.ok r ∧ a < (r + 1) ^ 3 ∧ (r = 0 ∨ (r - 1) ^ 3 < a) ∧
        (r ^ 3 = a ↔ (a = 0 ∨ a = 1 ∨ a = 8 ∨ a = 27))) := by
  refine ⟨cubic_root_percent a, fun h => ?_⟩
  interval_cases a <;> exact ⟨_, rfl, by decide, by decide, by decide⟩

/-- C11 (amended) at `a = 2681735677 * 100`, where the result is 6451, and at
the cube `a = 27` on the table path. -/
theorem C11_cubic_root_error_witness :
    ((43683120 : Nat) ≤ 268173567700 ∧ (268173567700 : Nat) < 2 ^ 40 ∧ (27 : Nat) ≤ 63) ∧
    (∃ r, ctcp_cubic_root 268173567700 = Except.ok r ∧
      100 * cube_error r 268173567700 < 268173567700) ∧
    (∃ r, ctcp_cubic_root 27 = Except.ok r ∧ 27 < (r + 1) ^ 3 ∧ (r = 0 ∨ (r - 1) ^ 3 < 27) ∧
      (r ^ 3 = 27 ↔ ((27 : Nat) = 0 ∨ (27 : Nat) = 1 ∨ (27 : Nat) = 8 ∨ (27 : Nat) = 27))) ∧
    ctcp_cubic_root 268173567700 = Except.ok 6451 ∧ ctcp_cubic_root 27 = Except.ok 3 :=
  ⟨⟨by decide, by decide, by decide⟩,
    (C11_cubic_root_error 268173567700).1 (by decide) (by decide),
    (C11_cubic_root_error 27).2 (by decide), by decide, by decide⟩

/-! ## Hybrid slow start -/

/-- No exit flag means no Delay flag. -/
theorem no_flag_delay (f : Nat) (h : f &&& 3 = 0) : f &&& 2 = 0 := by
  have e : (2 : Nat) = 3 &&& 2 := by decide
  rw [e, ← Nat.and_assoc, h]
  decide

/-- `ctcp_hystart_update` as the sequence of its pieces. -/
theorem hystart_update_unfold (e : Env) (sk : ctcp_sock) (ca : bictcp) (delay : Nat) :
    ctcp_hystart_update e sk ca delay =
      if ca.found &&& 3 ≠ 0 then (sk, ca)
      else if (hystart_delay_sample (hystart_ack_train e ca) delay).found &&& 3 ≠ 0 then
        ({ sk with send_ssthresh := sk.snd_cwnd },
          hystart_delay_sample (hystart_ack_train e ca) delay)
      else (sk, hystart_delay_sample (hystart_ack_train e ca) delay) := rfl

/-- The ACK-train piece, branch by branch. -/
theorem hystart_ack_train_eq (e : Env) (ca : bictcp) :
    hystart_ack_train e ca =
      if toS32 ((e.clock : Int) - (ca.last_ack : Int)) ≤ 2 then
        if toU32 (toS32 ((e.clock : Int) - (ca.round_start : Int))) > ca.delay_min >>> 4 then
          { ca with last_ack := e.clock, found := (ca.found ||| 1) % U8 }
        else { ca with last_ack := e.clock }
      else ca := rfl

/-- The sample-or-test piece, branch by branch. -/
theorem hystart_delay_sample_eq (ca : bictcp) (delay : Nat) :
    hystart_delay_sample ca delay =
      if ca.sample_cnt < 8 then
        if ca.curr_rtt = 0 ∨ ca.curr_rtt > delay then
          { ca with curr_rtt := delay, sample_cnt := (ca.sample_cnt + 1) % U8 }
        else { ca with sample_cnt := (ca.sample_cnt + 1) % U8 }
      else
        if ca.curr_rtt > (ca.delay_min + clamp (ca.delay_min / 16) 32 128) % 2 ^ 32 then
          { ca with found := (ca.found ||| 2) % U8 }
        else ca := by
  have hth : (ca.delay_min + CTCP_HYSTART_DELAY_THRESH (ca.delay_min >>> 4)) % U32 =
      (ca.delay_min + clamp (ca.delay_min / 16) 32 128) % 2 ^ 32 := by
    simp only [CTCP_HYSTART_DELAY_THRESH, CTCP_HYSTART_DELAY_MIN, CTCP_HYSTART_DELAY_MAX, U32,
      Nat.shiftRight_eq_div_pow, Nat.shiftLeft_eq]
  unfold hystart_delay_sample
  rw [hth]
  by_cases hs : ca.sample_cnt < 8
  · have hs' : ca.sample_cnt < CTCP_HYSTART_MIN_SAMPLES := hs
    rw [if_pos hs, if_pos hs']
    by_cases h0 : ca.curr_rtt = 0 ∨ ca.curr_rtt > delay
    · rw [if_pos h0, if_pos h0]
    · rw [if_neg h0, if_neg h0]
  · have hs' : ¬ ca.sample_cnt < CTCP_HYSTART_MIN_SAMPLES := hs
    rw [if_neg hs, if_neg hs']
    rfl

/-- No exit flag means no AckTrain flag. -/
theorem no_flag_train (f : Nat) (h : f &&& 3 = 0) : f &&& 1 = 0 := by
  have e : (1 : Nat) = 3 &&& 1 := by decide
  rw [e, ← Nat.and_assoc, h]
  decide

/-- The clamp of the delay threshold is at most its upper limit. -/
theorem clamp_le (x lo hi : Nat) : clamp x lo hi ≤ hi := by
  simp only [clamp]
  split_ifs <;> omega

/-- With no exit flag on entry `ctcp_hystart_update` leaves the private block
its two pieces produce, and sets the threshold exactly when a flag is then
set. -/
theorem hystart_update_open (e : Env) (sk : ctcp_sock) (ca : bictcp) (delay : Nat)
    (h0 : ca.found &&& 3 = 0) :
    (ctcp_hystart_update e sk ca delay).2 =
        hystart_delay_sample (hystart_ack_train e ca) delay ∧
      (ctcp_hystart_update e sk ca delay).1 =
        if (hystart_delay_sample (hystart_ack_train e ca) delay).found &&& 3 ≠ 0 then
          { sk with send_ssthresh := sk.snd_cwnd }
        else sk := by
  rw [hystart_update_unfold, if_neg (fun h => h h0)]
  split <;> exact ⟨rfl, rfl⟩

/-- With an exit flag on entry `ctcp_hystart_update` does nothing. -/
theorem hystart_update_found (e : Env) (sk : ctcp_sock) (ca : bictcp) (delay : Nat)
    (h0 : ca.found &&& 3 ≠ 0) : ctcp_hystart_update e sk ca delay = (sk, ca) := by
  rw [hystart_update_unfold, if_pos h0]

/-- Scenario C is the state the run `scenario_C_calls` leaves. -/
theorem scenario_C_reached : cubic_run bictcp_zero scenario_C_calls = Except.ok scenario_C := by
  decide!

/-- C16: for every call of `ctcp_hystart_update`: with no exit flag on entry
and one on return the threshold is the window; with no flag on return, or one
already on entry, the threshold is unchanged; the window is never changed; and
a flag bit set on entry is set on return. -/
theorem C16_hystart_exit (e : Env) (sk : ctcp_sock) (ca : bictcp) (delay : Nat) :
    (ca.found &&& 3 = 0 → (ctcp_hystart_update e sk ca delay).2.found &&& 3 ≠ 0 →
        (ctcp_hystart_update e sk ca delay).1.send_ssthresh = sk.snd_cwnd) ∧
      ((ctcp_hystart_update e sk ca delay).2.found &&& 3 = 0 ∨ ca.found &&& 3 ≠ 0 →
        (ctcp_hystart_update e sk ca delay).1.send_ssthresh = sk.send_ssthresh) ∧
      (ctcp_hystart_update e sk ca delay).1.snd_cwnd = sk.snd_cwnd ∧
      (ca.found &&& CTCP_HYSTART_ACK_TRAIN ≠ 0 →
        (ctcp_hystart_update e sk ca delay).2.found &&& CTCP_HYSTART_ACK_TRAIN ≠ 0) ∧
      (ca.found &&& CTCP_HYSTART_DELAY ≠ 0 →
        (ctcp_hystart_update e sk ca delay).2.found &&& CTCP_HYSTART_DELAY ≠ 0) := by
  by_cases h0 : ca.found &&& 3 = 0
  · obtain ⟨h2, h1⟩ := hystart_update_open e sk ca delay h0
    rw [h2, h1]
    refine ⟨fun _ hf => ?_, fun h => ?_, ?_, fun h => ?_, fun h => ?_⟩
    · rw [if_pos hf]
    · rcases h with h | h
      · rw [if_neg (fun hn => hn h)]
      · exact absurd h0 h
    · split <;> rfl
    · exact absurd (no_flag_train _ h0) h
    · exact absurd (no_flag_delay _ h0) h
  · rw [hystart_update_found e sk ca delay h0]
    exact ⟨fun h => absurd h h0, fun _ => rfl, rfl, fun h => h, fun h => h⟩

/-- C16 at scenario C: no flag on entry, Delay on return, and the threshold
becomes the window, 100, which is itself unchanged. -/
theorem C16_hystart_exit_witness :
    (scenario_C.found &&& 3 = 0 ∧
      (ctcp_hystart_update env_5000 scenario_C_sock scenario_C 4800).2.found &&& 3 ≠ 0) ∧
    (ctcp_hystart_update env_5000 scenario_C_sock scenario_C 4800).1.send_ssthresh =
      scenario_C_sock.snd_cwnd ∧
    (ctcp_hystart_update env_5000 scenario_C_sock scenario_C 4800).1.snd_cwnd = 100 :=
  ⟨⟨by decide, by decide⟩,
    (C16_hystart_exit env_5000 scenario_C_sock scenario_C 4800).1 (by decide) (by decide),
    by decide⟩

/-! ## The blocks of the window update -/

/-- A bind that returns had a first step that returned. -/
theorem except_bind_inv {ε α β : Type} (x : Except ε α) (f : α → Except ε β) (b : β)
    (h : x.bind f = Except.ok b) : ∃ a, x = Except.ok a ∧ f a = Except.ok b := by
  cases x with
  | error err => cases h
  | ok a => exact ⟨a, rfl, h⟩

/-- A bind whose first step fails, fails the same way. -/
theorem except_bind_error {ε α β : Type} (err : ε) (f : α → Except ε β) :
    (Except.error err : Except ε α).bind f = Except.error err := rfl

/-- A division by a non-zero divisor returns the quotient. -/
theorem udiv_ok (a b : Nat) (hb : b ≠ 0) : udiv a b = Except.ok (a / b) := by
  unfold udiv
  rw [if_neg hb]

/-- A division that returns had a non-zero divisor. -/
theorem udiv_inv (a b q : Nat) (h : udiv a b = Except.ok q) : b ≠ 0 ∧ q = a / b := by
  unfold udiv at h
  by_cases hb : b = 0
  · rw [if_pos hb] at h
    cases h
  · rw [if_neg hb] at h
    cases h
    exact ⟨hb, rfl⟩

/-- The cube root returns on every 64-bit value. -/
theorem cubic_root_total (a : Nat) (ha : a < 2 ^ 64) : ∃ r, ctcp_cubic_root a = Except.ok r := by
  by_cases h : a ≤ 63
  · obtain ⟨y, _, hy⟩ := cubic_root_table a h
    exact ⟨_, hy⟩
  · obtain ⟨y, h1⟩ := cubic_root_newton a (by omega) ha
    exact ⟨_, h1.2.2.2.2.2.2.2.2.2.2.2.2.2.2⟩

/-- The epoch block always returns; it writes `epoch_start`, `ack_cnt`,
`tcp_cwnd`, `bic_K` and `bic_origin_point` only, and nothing when the epoch is
open. -/
theorem update_epoch_total (e : Env) (ca : bictcp) (cwnd : Nat) :
    ∃ ca3, bictcp_update_epoch e ca cwnd = Except.ok ca3 ∧
      ca3.delayed_ack = ca.delayed_ack ∧ ca3.last_max_cwnd = ca.last_max_cwnd ∧
      ca3.cnt = ca.cnt ∧ (ca.epoch_start ≠ 0 → ca3 = ca) := by
  unfold bictcp_update_epoch
  by_cases h0 : 0 = ca.epoch_start
  · rw [if_pos h0]
    dsimp only
    by_cases hm : ca.last_max_cwnd ≤ cwnd
    · rw [if_pos hm]
      exact ⟨_, rfl, rfl, rfl, rfl, fun h => absurd h0.symm h⟩
    · rw [if_neg hm]
      obtain ⟨k, hk⟩ := cubic_root_total ((cube_factor * (ca.last_max_cwnd - cwnd)) % U64)
        (Nat.mod_lt _ (by decide))
      rw [hk, except_bind_ok]
      exact ⟨_, rfl, rfl, rfl, rfl, fun h => absurd h0.symm h⟩
  · rw [if_neg h0]
    exact ⟨ca, rfl, rfl, rfl, rfl, fun _ => rfl⟩

/-- The growth-rate block always returns and writes `cnt` only: the divisor
`bic_target - cwnd` is used only when `bic_target > cwnd`. -/
theorem update_cnt_total (ca : bictcp) (cwnd tg : Nat) :
    ∃ c, bictcp_update_cnt ca cwnd tg = Except.ok { ca with cnt := c } := by
  unfold bictcp_update_cnt
  by_cases h : tg > cwnd
  · rw [if_pos h, udiv_ok _ _ (by omega), except_bind_ok]
    dsimp only
    split
    · exact ⟨20, rfl⟩
    · exact ⟨_, rfl⟩
  · rw [if_neg h, except_bind_ok]
    dsimp only
    split
    · exact ⟨20, rfl⟩
    · exact ⟨_, rfl⟩

/-- The loop of the friendliness block either exits or never does. -/
theorem tcp_friend_loop_outcome (delta : Nat) :
    ∀ (fuel ack_cnt tcp_cwnd : Nat),
      (∃ r, tcp_friend_loop fuel delta ack_cnt tcp_cwnd = Except.ok r) ∨
        tcp_friend_loop fuel delta ack_cnt tcp_cwnd = Except.error ctcp_fault.no_return := by
  intro fuel
  induction fuel with
  | zero =>
    intro ack_cnt tcp_cwnd
    by_cases h : ack_cnt > delta
    · exact Or.inr (by simp only [tcp_friend_loop, if_pos h])
    · exact Or.inl ⟨(ack_cnt, tcp_cwnd), by simp only [tcp_friend_loop, if_neg h]⟩
  | succ n ih =>
    intro ack_cnt tcp_cwnd
    by_cases h : ack_cnt > delta
    · simp only [tcp_friend_loop, if_pos h]
      exact ih _ _
    · exact Or.inl ⟨(ack_cnt, tcp_cwnd), by simp only [tcp_friend_loop, if_neg h]⟩

/-- When the loop exits after `k` rounds it has taken `k * delta` off
`ack_cnt`, added `k` to `tcp_cwnd` and left `ack_cnt` at most `delta`. -/
theorem tcp_friend_loop_count (delta : Nat) :
    ∀ (fuel ack_cnt tcp_cwnd : Nat) (r : Nat × Nat),
      tcp_friend_loop fuel delta ack_cnt tcp_cwnd = Except.ok r →
        r.1 ≤ delta ∧ ∃ k, ack_cnt = r.1 + k * delta ∧
          r.2 % U32 = (tcp_cwnd + k) % U32 ∧ (k = 0 → r.2 = tcp_cwnd) := by
  intro fuel
  induction fuel with
  | zero =>
    intro ack_cnt tcp_cwnd r h
    by_cases hgt : ack_cnt > delta
    · simp only [tcp_friend_loop, if_pos hgt] at h
      cases h
    · simp only [tcp_friend_loop, if_neg hgt] at h
      cases h
      exact ⟨by simp only; omega, 0, by simp, by simp, fun _ => rfl⟩
  | succ n ih =>
    intro ack_cnt tcp_cwnd r h
    by_cases hgt : ack_cnt > delta
    · simp only [tcp_friend_loop, if_pos hgt] at h
      obtain ⟨hle, k, h1, h2, _⟩ := ih _ _ r h
      refine ⟨hle, k + 1, ?_, ?_, fun hk => absurd hk (by omega)⟩
      · rw [Nat.add_mul, Nat.one_mul]
        omega
      · rw [h2, Nat.add_mod, Nat.mod_mod, ← Nat.add_mod]
        congr 1
        omega
    · simp only [tcp_friend_loop, if_neg hgt] at h
      cases h
      exact ⟨by simp only; omega, 0, by simp, by simp, fun _ => rfl⟩

/-- The friendliness block, given what its loop returns: `ack_cnt` and
`tcp_cwnd` are the loop's, and `cnt` is capped by `cwnd / (tcp_cwnd - cwnd)`
when `tcp_cwnd > cwnd`; the divisor is used only then. -/
theorem update_friend_eq (ca : bictcp) (cwnd : Nat) :
    bictcp_update_friend ca cwnd =
      (tcp_friend_loop ca.ack_cnt (((cwnd * 15) % 2 ^ 32) >>> 3) ca.ack_cnt ca.tcp_cwnd).bind
        (fun r => Except.ok
          { ca with ack_cnt := r.1, tcp_cwnd := r.2,
                    cnt := if r.2 > cwnd then min ca.cnt (cwnd / (r.2 - cwnd)) else ca.cnt }) := by
  unfold bictcp_update_friend
  rw [if_pos (by decide)]
  show (tcp_friend_loop ca.ack_cnt (((cwnd * 15) % 2 ^ 32) >>> 3) ca.ack_cnt ca.tcp_cwnd).bind _ = _
  congr 1
  funext r
  dsimp only
  by_cases h : r.2 > cwnd
  · rw [if_pos h, if_pos h, udiv_ok _ _ (by omega), except_bind_ok]
    by_cases hc : ca.cnt > cwnd / (r.2 - cwnd)
    · rw [if_pos hc, Nat.min_eq_right (Nat.le_of_lt hc)]
    · rw [if_neg hc, Nat.min_eq_left (Nat.le_of_not_lt hc)]
  · rw [if_neg h, if_neg h]

/-- The scaling block returns when the delayed-ACK ratio is not zero: `cnt`
becomes `(cnt << 4) / delayed_ack`, or 1 if that is 0. -/
theorem update_scale_eq (ca : bictcp) (hd : ca.delayed_ack ≠ 0) :
    bictcp_update_scale ca =
      Except.ok { ca with cnt := if ((ca.cnt * 16) % 2 ^ 32) / ca.delayed_ack = 0 then 1
                                 else ((ca.cnt * 16) % 2 ^ 32) / ca.delayed_ack } := by
  unfold bictcp_update_scale
  rw [udiv_ok _ _ hd, except_bind_ok]
  dsimp only
  have e : (ca.cnt <<< CTCP_ACK_RATIO_SHIFT) % U32 = (ca.cnt * 16) % 2 ^ 32 := by
    simp only [CTCP_ACK_RATIO_SHIFT, U32, Nat.shiftLeft_eq]
  rw [e]
  by_cases h : ((ca.cnt * 16) % 2 ^ 32) / ca.delayed_ack = 0
  · rw [if_pos h, if_pos h.symm]
  · rw [if_neg h, if_neg (fun hh => h hh.symm)]

/-- The scaling block fails, with a division by zero, exactly when the
delayed-ACK ratio is zero. -/
theorem update_scale_zero (ca : bictcp) (hd : ca.delayed_ack = 0) :
    bictcp_update_scale ca = Except.error ctcp_fault.div_by_zero := by
  unfold bictcp_update_scale udiv
  rw [if_pos hd]
  rfl

/-! ## The window update as a whole -/

/-- An early-returned update only counts the ACK. -/
theorem update_early (e : Env) (t : Nat) (ca : bictcp) (cwnd : Nat)
    (h : ca.last_cwnd = cwnd ∧
      toS32 ((e.tcp_time_stamp : Int) - (ca.last_time : Int)) ≤ ((e.HZ / 32 : Nat) : Int)) :
    ctcp_bictcp_update e t ca cwnd =
      Except.ok { ca with ack_cnt := (ca.ack_cnt + 1) % U32 } := by
  unfold ctcp_bictcp_update
  dsimp only
  rw [if_pos h]

/-- With `HZ = 0` a full update fails at the conversion of `t`. -/
theorem update_full_hz0 (e : Env) (t : Nat) (ca : bictcp) (cwnd : Nat)
    (hfull : ¬ (ca.last_cwnd = cwnd ∧
      toS32 ((e.tcp_time_stamp : Int) - (ca.last_time : Int)) ≤ ((e.HZ / 32 : Nat) : Int)))
    (hz : e.HZ = 0) :
    ctcp_bictcp_update e t ca cwnd = Except.error ctcp_fault.div_by_zero := by
  unfold ctcp_bictcp_update
  dsimp only
  rw [if_neg hfull]
  obtain ⟨ca3, h3, _⟩ := update_epoch_total e
    { ca with ack_cnt := (ca.ack_cnt + 1) % U32, last_cwnd := cwnd,
              last_time := e.tcp_time_stamp } cwnd
  rw [h3, except_bind_ok]
  unfold udiv
  rw [if_pos hz]
  rfl

/-- A full update with `HZ > 0` reaches the friendliness block in a state
`ca4` with the delayed-ACK ratio it started with, and from there is the
friendliness block followed by the scaling block. -/
theorem update_full_eq (e : Env) (t : Nat) (ca : bictcp) (cwnd : Nat)
    (hfull : ¬ (ca.last_cwnd = cwnd ∧
      toS32 ((e.tcp_time_stamp : Int) - (ca.last_time : Int)) ≤ ((e.HZ / 32 : Nat) : Int)))
    (hz : e.HZ ≠ 0) :
    ∃ ca4, ca4.delayed_ack = ca.delayed_ack ∧
      ctcp_bictcp_update e t ca cwnd =
        (bictcp_update_friend ca4 cwnd).bind bictcp_update_scale := by
  unfold ctcp_bictcp_update
  dsimp only
  rw [if_neg hfull]
  obtain ⟨ca3, h3, hd3, _⟩ := update_epoch_total e
    { ca with ack_cnt := (ca.ack_cnt + 1) % U32, last_cwnd := cwnd,
              last_time := e.tcp_time_stamp } cwnd
  rw [h3, except_bind_ok, udiv_ok _ _ hz, except_bind_ok]
  obtain ⟨c, hc⟩ := update_cnt_total ca3 cwnd
    (bictcp_update_target ca3 ((t <<< CTCP_BICTCP_HZ) % U64 / e.HZ))
  rw [hc, except_bind_ok]
  exact ⟨{ ca3 with cnt := c }, hd3, rfl⟩

/-- The floor of 1 on `cnt`. -/
theorem floor_one_le (q : Nat) : 1 ≤ (if q = 0 then 1 else q) := by
  split <;> omega

/-- The two outcomes of the friendliness block followed by the scaling block,
for a non-zero delayed-ACK ratio: the loop never exits, or both blocks return
and leave `cnt ≥ 1`, `cnt` at most the scaled cap when `tcp_cwnd > cwnd`. -/
theorem friend_scale_outcome (ca4 : bictcp) (cwnd : Nat) (hd : ca4.delayed_ack ≠ 0) :
    (bictcp_update_friend ca4 cwnd).bind bictcp_update_scale =
        Except.error ctcp_fault.no_return ∨
      ∃ r ca5 ca6,
        tcp_friend_loop ca4.ack_cnt (((cwnd * 15) % 2 ^ 32) >>> 3) ca4.ack_cnt ca4.tcp_cwnd =
          Except.ok r ∧
        bictcp_update_friend ca4 cwnd = Except.ok ca5 ∧
        bictcp_update_scale ca5 = Except.ok ca6 ∧
        (bictcp_update_friend ca4 cwnd).bind bictcp_update_scale = Except.ok ca6 ∧
        ca5.ack_cnt = r.1 ∧ ca5.tcp_cwnd = r.2 ∧ ca5.delayed_ack = ca4.delayed_ack ∧
        ca5.cnt = (if r.2 > cwnd then min ca4.cnt (cwnd / (r.2 - cwnd)) else ca4.cnt) ∧
        ca6.ack_cnt = r.1 ∧ ca6.tcp_cwnd = r.2 ∧ ca6.delayed_ack = ca4.delayed_ack ∧
        1 ≤ ca6.cnt ∧
        ca6.cnt = (if ((ca5.cnt * 16) % 2 ^ 32) / ca4.delayed_ack = 0 then 1
                   else ((ca5.cnt * 16) % 2 ^ 32) / ca4.delayed_ack) := by
  rw [update_friend_eq]
  rcases tcp_friend_loop_outcome (((cwnd * 15) % 2 ^ 32) >>> 3) ca4.ack_cnt ca4.ack_cnt
      ca4.tcp_cwnd with ⟨r, hr⟩ | herr
  · right
    rw [hr, except_bind_ok, except_bind_ok]
    have hs := update_scale_eq
      { ca4 with ack_cnt := r.1, tcp_cwnd := r.2,
                 cnt := if r.2 > cwnd then min ca4.cnt (cwnd / (r.2 - cwnd)) else ca4.cnt } hd
    exact ⟨r, _, _, rfl, rfl, hs, hs, rfl, rfl, rfl, rfl, rfl, rfl, rfl, floor_one_le _, rfl⟩
  · left
    rw [herr]
    rfl

/-- With a zero delayed-ACK ratio the two blocks never return a state. -/
theorem friend_scale_zero (ca4 : bictcp) (cwnd : Nat) (hd : ca4.delayed_ack = 0)
    (ca6 : bictcp) :
    (bictcp_update_friend ca4 cwnd).bind bictcp_update_scale ≠ Except.ok ca6 := by
  rw [update_friend_eq]
  rcases tcp_friend_loop_outcome (((cwnd * 15) % 2 ^ 32) >>> 3) ca4.ack_cnt ca4.ack_cnt
      ca4.tcp_cwnd with ⟨r, hr⟩ | herr
  · rw [hr, except_bind_ok, except_bind_ok, update_scale_zero]
    · intro h
      cases h
    · exact hd
  · rw [herr]
    intro h
    cases h

/-- With a positive loop bound and a non-zero delayed-ACK ratio the two blocks
return. -/
theorem friend_scale_returns (ca4 : bictcp) (cwnd : Nat) (hd : ca4.delayed_ack ≠ 0)
    (hdelta : 0 < ((cwnd * 15) % 2 ^ 32) >>> 3) :
    ∃ ca6, (bictcp_update_friend ca4 cwnd).bind bictcp_update_scale = Except.ok ca6 := by
  obtain ⟨r, hr, _⟩ := tcp_friend_loop_returns _ hdelta ca4.ack_cnt ca4.ack_cnt ca4.tcp_cwnd
    (Nat.le_refl _)
  rw [update_friend_eq, hr, except_bind_ok, except_bind_ok, update_scale_eq]
  · exact ⟨_, rfl⟩
  · exact hd

/-- C17 as stated fails where `cwnd * 15` wraps to less than 8: at
`cwnd = 4008636143` (`cwnd * 15 = 1` modulo `2^32`) the bound of the
friendliness loop is 0, `ack_cnt` is 1 and never shrinks, and the full run on a
freshly initialised block never returns, so it leaves no `cnt`. -/
theorem C17_counterexample :
    (1 ≤ fresh_block.delayed_ack ∧ 1 ≤ 4008636143 ∧ 4008636143 < 2 ^ 32 ∧
      ¬ (fresh_block.last_cwnd = 4008636143 ∧
        toS32 ((env_5000.tcp_time_stamp : Int) - (fresh_block.last_time : Int)) ≤
          ((env_5000.HZ / 32 : Nat) : Int))) ∧
      (4008636143 * 15) % 2 ^ 32 = 1 ∧
      ctcp_bictcp_update env_5000 0 fresh_block 4008636143 =
        Except.error ctcp_fault.no_return := by
  decide

/-- C17, amended: for a delayed-ACK ratio of at least 1, every window and every value
of `t`, a full run of `ctcp_bictcp_update` performs no division by zero (the
only way it can fail is a friendliness loop that never exits), every run that
returns leaves `cnt ≥ 1`, and the run does return whenever the loop bound
`((cwnd * 15) mod 2^32) >> 3` is positive, in particular for `cwnd ≥ 1` with
`cwnd * 15 < 2^32`. -/
theorem C17_update_divisions (e : Env) (t : Nat) (ca : bictcp) (cwnd : Nat)
    (hd : 1 ≤ ca.delayed_ack) (hz : 0 < e.HZ)
    (hfull : ¬ (ca.last_cwnd = cwnd ∧
      toS32 ((e.tcp_time_stamp : Int) - (ca.last_time : Int)) ≤ ((e.HZ / 32 : Nat) : Int))) :
    ctcp_bictcp_update e t ca cwnd ≠ Except.error ctcp_fault.div_by_zero ∧
      (∀ f, ctcp_bictcp_update e t ca cwnd = Except.error f → f = ctcp_fault.no_return) ∧
      (∀ ca1, ctcp_bictcp_update e t ca cwnd = Except.ok ca1 → 1 ≤ ca1.cnt) ∧
      (8 ≤ (cwnd * 15) % 2 ^ 32 →
        ∃ ca1, ctcp_bictcp_update e t ca cwnd = Except.ok ca1 ∧ 1 ≤ ca1.cnt) ∧
      (1 ≤ cwnd → cwnd * 15 < 2 ^ 32 →
        ∃ ca1, ctcp_bictcp_update e t ca cwnd = Except.ok ca1 ∧ 1 ≤ ca1.cnt) := by
  obtain ⟨ca4, hd4, heq⟩ := update_full_eq e t ca cwnd hfull (by omega)
  have hd4' : ca4.delayed_ack ≠ 0 := by omega
  have hret : 8 ≤ (cwnd * 15) % 2 ^ 32 →
      ∃ ca1, ctcp_bictcp_update e t ca cwnd = Except.ok ca1 ∧ 1 ≤ ca1.cnt := by
    intro h8
    have hdelta : 0 < ((cwnd * 15) % 2 ^ 32) >>> 3 := by
      rw [Nat.shiftRight_eq_div_pow]
      omega
    obtain ⟨ca6, h6⟩ := friend_scale_returns ca4 cwnd hd4' hdelta
    rcases friend_scale_outcome ca4 cwnd hd4' with herr | ⟨r, ca5, ca7, _, _, _, h7, hrest⟩
    · rw [herr] at h6
      cases h6
    · rw [h7] at h6
      cases h6
      exact ⟨ca6, by rw [heq, h7], hrest.2.2.2.2.2.2.2.1⟩
  rw [heq]
  rcases friend_scale_outcome ca4 cwnd hd4' with herr | ⟨r, ca5, ca6, _, _, _, h6, hrest⟩
  · rw [herr]
    refine ⟨fun h => (by cases h), fun f h => (by cases h; rfl), fun ca1 h => (by cases h),
      ?_, ?_⟩
    · intro h8
      obtain ⟨ca1, h1, _⟩ := hret h8
      rw [heq, herr] at h1
      cases h1
    · intro h1 h15
      obtain ⟨ca1, h1, _⟩ := hret (by rw [Nat.mod_eq_of_lt h15]; omega)
      rw [heq, herr] at h1
      cases h1
  · rw [h6]
    have hc6 : 1 ≤ ca6.cnt := hrest.2.2.2.2.2.2.2.1
    exact ⟨fun h => (by cases h), fun f h => (by cases h),
      fun ca1 h => (by cases h; exact hc6),
      fun _ => ⟨ca6, rfl, hc6⟩, fun _ _ => ⟨ca6, rfl, hc6⟩⟩

/-- C17 at a window of 100 on a block whose last maximum is 200, in an
environment with `HZ = 1000`. -/
theorem C17_update_divisions_witness :
    (1 ≤ bictcp_after_loss.delayed_ack ∧ 0 < env_5000.HZ ∧
      ¬ (bictcp_after_loss.last_cwnd = 100 ∧
        toS32 ((env_5000.tcp_time_stamp : Int) - (bictcp_after_loss.last_time : Int)) ≤
          ((env_5000.HZ / 32 : Nat) : Int))) ∧
    (ctcp_bictcp_update env_5000 0 bictcp_after_loss 100 ≠
        Except.error ctcp_fault.div_by_zero ∧
      (∀ f, ctcp_bictcp_update env_5000 0 bictcp_after_loss 100 = Except.error f →
        f = ctcp_fault.no_return) ∧
      (∀ ca1, ctcp_bictcp_update env_5000 0 bictcp_after_loss 100 = Except.ok ca1 →
        1 ≤ ca1.cnt) ∧
      (8 ≤ (100 * 15) % 2 ^ 32 →
        ∃ ca1, ctcp_bictcp_update env_5000 0 bictcp_after_loss 100 = Except.ok ca1 ∧
          1 ≤ ca1.cnt) ∧
      (1 ≤ 100 → 100 * 15 < 2 ^ 32 →
        ∃ ca1, ctcp_bictcp_update env_5000 0 bictcp_after_loss 100 = Except.ok ca1 ∧
          1 ≤ ca1.cnt)) :=
  ⟨⟨by decide, by decide, by decide⟩,
    C17_update_divisions env_5000 0 bictcp_after_loss 100 (by decide) (by decide) (by decide)⟩

/-- The state the fifty ACKs leave after the loss at a window of 37. -/
theorem plateau_reached :
    cubic_state_run recovered_sock recovered_block fifty_acks =
      Except.ok (plateau_sock, plateau_block) := by
  decide!

/-- When the loop exits it has run `k` rounds for exactly one `k`: it has taken
`k * delta` off `ack_cnt`, every round but the last left `ack_cnt` above
`delta` and the last left it at least 1, and `tcp_cwnd` has been incremented
`k` times in `u32`. -/
theorem tcp_friend_loop_exact (delta : Nat) :
    ∀ (fuel ack_cnt tcp_cwnd : Nat) (r : Nat × Nat),
      tcp_friend_loop fuel delta ack_cnt tcp_cwnd = Except.ok r →
        r.1 ≤ delta ∧ ∃ k, ack_cnt = r.1 + k * delta ∧ (k = 0 ∨ 1 ≤ r.1) ∧
          (k = 0 → r.2 = tcp_cwnd) ∧ (1 ≤ k → r.2 = (tcp_cwnd + k) % 2 ^ 32) := by
  intro fuel
  induction fuel with
  | zero =>
    intro ack_cnt tcp_cwnd r h
    by_cases hgt : ack_cnt > delta
    · simp only [tcp_friend_loop, if_pos hgt] at h
      cases h
    · simp only [tcp_friend_loop, if_neg hgt] at h
      cases h
      exact ⟨by simp only; omega, 0, by simp, Or.inl rfl, fun _ => rfl,
        fun hk => absurd hk (by omega)⟩
  | succ n ih =>
    intro ack_cnt tcp_cwnd r h
    by_cases hgt : ack_cnt > delta
    · simp only [tcp_friend_loop, if_pos hgt] at h
      obtain ⟨hle, k, h1, h2, h3, h4⟩ := ih _ _ r h
      refine ⟨hle, k + 1, ?_, ?_, fun hk => absurd hk (by omega), fun _ => ?_⟩
      · rw [Nat.add_mul, Nat.one_mul]
        omega
      · by_cases hk : k = 0
        · right
          rw [hk, Nat.zero_mul] at h1
          omega
        · rcases h2 with h2 | h2
          · exact absurd h2 hk
          · exact Or.inr h2
      · by_cases hk : k = 0
        · rw [h3 hk, hk]
          rfl
        · rw [h4 (by omega)]
          simp only [U32]
          omega
    · simp only [tcp_friend_loop, if_neg hgt] at h
      cases h
      exact ⟨by simp only; omega, 0, by simp, Or.inl rfl, fun _ => rfl,
        fun hk => absurd hk (by omega)⟩

/-- The epoch block sets `ack_cnt` to 1 and `tcp_cwnd` to the window when it
opens an epoch, and leaves them otherwise. -/
theorem update_epoch_counts (e : Env) (ca : bictcp) (cwnd : Nat) :
    ∃ ca3, bictcp_update_epoch e ca cwnd = Except.ok ca3 ∧
      ca3.delayed_ack = ca.delayed_ack ∧
      ca3.ack_cnt = (if ca.epoch_start = 0 then 1 else ca.ack_cnt) ∧
      ca3.tcp_cwnd = (if ca.epoch_start = 0 then cwnd else ca.tcp_cwnd) := by
  unfold bictcp_update_epoch
  by_cases h0 : 0 = ca.epoch_start
  · have h0' : ca.epoch_start = 0 := h0.symm
    rw [if_pos h0, if_pos h0', if_pos h0']
    dsimp only
    by_cases hm : ca.last_max_cwnd ≤ cwnd
    · rw [if_pos hm]
      exact ⟨_, rfl, rfl, rfl, rfl⟩
    · rw [if_neg hm]
      obtain ⟨k, hk⟩ := cubic_root_total ((cube_factor * (ca.last_max_cwnd - cwnd)) % U64)
        (Nat.mod_lt _ (by decide))
      rw [hk, except_bind_ok]
      exact ⟨_, rfl, rfl, rfl, rfl⟩
  · have h0' : ¬ ca.epoch_start = 0 := fun h => h0 h.symm
    rw [if_neg h0, if_neg h0', if_neg h0']
    exact ⟨ca, rfl, rfl, rfl, rfl⟩

/-- With `HZ > 0` the update reaches the friendliness block: the block there
has the delayed-ACK ratio of the call, an `ack_cnt` of 1 on a new epoch and one
more than before otherwise, and a `tcp_cwnd` that is the window on a new epoch
and as before otherwise. -/
theorem update_before_friend_total (e : Env) (t : Nat) (ca : bictcp) (cwnd : Nat)
    (hz : e.HZ ≠ 0) :
    ∃ ca4, update_before_friend e t ca cwnd = Except.ok ca4 ∧
      ca4.delayed_ack = ca.delayed_ack ∧
      ca4.ack_cnt = (if ca.epoch_start = 0 then 1 else (ca.ack_cnt + 1) % 2 ^ 32) ∧
      ca4.tcp_cwnd = (if ca.epoch_start = 0 then cwnd else ca.tcp_cwnd) := by
  unfold update_before_friend
  dsimp only
  obtain ⟨ca3, h3, hd3, ha3, ht3⟩ := update_epoch_counts e
    { ca with ack_cnt := (ca.ack_cnt + 1) % U32, last_cwnd := cwnd,
              last_time := e.tcp_time_stamp } cwnd
  rw [h3, except_bind_ok, udiv_ok _ _ hz, except_bind_ok]
  obtain ⟨c, hc⟩ := update_cnt_total ca3 cwnd
    (bictcp_update_target ca3 ((t <<< CTCP_BICTCP_HZ) % U64 / e.HZ))
  rw [hc]
  exact ⟨{ ca3 with cnt := c }, rfl, hd3, ha3, ht3⟩

/-- A run that does not return early is the run up to the friendliness block
followed by that block and the scaling block. -/
theorem update_full_split (e : Env) (t : Nat) (ca : bictcp) (cwnd : Nat)
    (hfull : ¬ (ca.last_cwnd = cwnd ∧
      toS32 ((e.tcp_time_stamp : Int) - (ca.last_time : Int)) ≤ ((e.HZ / 32 : Nat) : Int)))
    (hz : e.HZ ≠ 0) (ca4 : bictcp) (h4 : update_before_friend e t ca cwnd = Except.ok ca4) :
    ctcp_bictcp_update e t ca cwnd =
      (bictcp_update_friend ca4 cwnd).bind bictcp_update_scale := by
  unfold update_before_friend at h4
  dsimp only at h4
  unfold ctcp_bictcp_update
  dsimp only
  rw [if_neg hfull]
  obtain ⟨ca3, h3, _⟩ := update_epoch_counts e
    { ca with ack_cnt := (ca.ack_cnt + 1) % U32, last_cwnd := cwnd,
              last_time := e.tcp_time_stamp } cwnd
  rw [h3, except_bind_ok, udiv_ok _ _ hz, except_bind_ok] at h4
  rw [h3, except_bind_ok, udiv_ok _ _ hz, except_bind_ok, h4, except_bind_ok]

/-- The floor of 1 on `cnt`, as a maximum. -/
theorem floor_one_max (q : Nat) : (if q = 0 then 1 else q) = max 1 q := by
  split <;> omega

/-- C18: in a full run of `ctcp_bictcp_update` with `cwnd ≥ 1` and
`cwnd * 15 < 2^32`, let `ca4` be the private block of this run on entry to the
friendliness block (`update_before_friend`: its `ack_cnt` is the call's plus
one, or 1 on a new epoch, and its `tcp_cwnd` is the call's, or the window on a
new epoch). The loop, started on `ca4.ack_cnt` and `ca4.tcp_cwnd`, exits with
`ack_cnt ≤ (cwnd * 15) >> 3` after `k` rounds, having taken the bound off
`ack_cnt` and added one to `tcp_cwnd` (in `u32`) `k` times; the run leaves that
`ack_cnt` and that `tcp_cwnd`, `T`. If `T > cwnd`, the friendliness block leaves
`cnt = min ca4.cnt (cwnd / (T - cwnd))`, the final `cnt` is
`max 1 ((that << 4) / delayed_ack)` and so at most
`max 1 ((cwnd / (T - cwnd)) * 16 / delayed_ack)`, where the `<< 4` of the
bound is the multiplication by 16 (for `cwnd < 2^28` it is also the `u32`
shift); if `T ≤ cwnd` the final `cnt` is `max 1 ((ca4.cnt << 4) / delayed_ack)`.
With `HZ > 0` and a delayed-ACK ratio of at least 1 such a run returns. -/
theorem C18_tcp_friendliness (e : Env) (t : Nat) (ca : bictcp) (cwnd : Nat)
    (hc : 1 ≤ cwnd) (h15 : cwnd * 15 < 2 ^ 32)
    (hfull : ¬ (ca.last_cwnd = cwnd ∧
      toS32 ((e.tcp_time_stamp : Int) - (ca.last_time : Int)) ≤ ((e.HZ / 32 : Nat) : Int))) :
    (∀ ca1, ctcp_bictcp_update e t ca cwnd = Except.ok ca1 →
      ∃ ca4 r k,
        update_before_friend e t ca cwnd = Except.ok ca4 ∧
        ctcp_bictcp_update e t ca cwnd =
          (bictcp_update_friend ca4 cwnd).bind bictcp_update_scale ∧
        ca4.delayed_ack = ca.delayed_ack ∧
        ca4.ack_cnt = (if ca.epoch_start = 0 then 1 else (ca.ack_cnt + 1) % 2 ^ 32) ∧
        ca4.tcp_cwnd = (if ca.epoch_start = 0 then cwnd else ca.tcp_cwnd) ∧
        tcp_friend_loop ca4.ack_cnt ((cwnd * 15) >>> 3) ca4.ack_cnt ca4.tcp_cwnd =
          Except.ok r ∧
        r.1 ≤ (cwnd * 15) >>> 3 ∧
        ca4.ack_cnt = r.1 + k * ((cwnd * 15) >>> 3) ∧ (k = 0 ∨ 1 ≤ r.1) ∧
        (k = 0 → r.2 = ca4.tcp_cwnd) ∧ (1 ≤ k → r.2 = (ca4.tcp_cwnd + k) % 2 ^ 32) ∧
        ca1.ack_cnt = r.1 ∧ ca1.tcp_cwnd = r.2 ∧
        (r.2 ≤ cwnd → ca1.cnt = max 1 (((ca4.cnt <<< 4) % 2 ^ 32) / ca.delayed_ack)) ∧
        (r.2 > cwnd →
          bictcp_update_friend ca4 cwnd =
            Except.ok { ca4 with ack_cnt := r.1, tcp_cwnd := r.2,
                                 cnt := min ca4.cnt (cwnd / (r.2 - cwnd)) } ∧
          ca1.cnt =
            max 1 ((((min ca4.cnt (cwnd / (r.2 - cwnd))) <<< 4) % 2 ^ 32) / ca.delayed_ack) ∧
          ca1.cnt ≤ max 1 ((cwnd / (r.2 - cwnd)) * 16 / ca.delayed_ack) ∧
          (cwnd < 2 ^ 28 →
            ca1.cnt ≤
              max 1 ((((cwnd / (r.2 - cwnd)) <<< 4) % 2 ^ 32) / ca.delayed_ack)))) ∧
      (0 < e.HZ → 1 ≤ ca.delayed_ack →
        ∃ ca1, ctcp_bictcp_update e t ca cwnd = Except.ok ca1) := by
  have hdl : ((cwnd * 15) % 2 ^ 32) >>> 3 = (cwnd * 15) >>> 3 := by
    rw [Nat.mod_eq_of_lt h15]
  have hdelta : 0 < ((cwnd * 15) % 2 ^ 32) >>> 3 := by
    rw [hdl, Nat.shiftRight_eq_div_pow]
    omega
  refine ⟨fun ca1 h1 => ?_, fun hz hd => ?_⟩
  · by_cases hz : e.HZ = 0
    · rw [update_full_hz0 e t ca cwnd hfull hz] at h1
      cases h1
    · obtain ⟨ca4, h4, hd4, ha4, ht4⟩ := update_before_friend_total e t ca cwnd hz
      have hsplit := update_full_split e t ca cwnd hfull hz ca4 h4
      rw [hsplit] at h1
      by_cases hd : ca4.delayed_ack = 0
      · exact absurd h1 (friend_scale_zero ca4 cwnd hd ca1)
      · rcases friend_scale_outcome ca4 cwnd hd with herr |
          ⟨r, ca5, ca6, hr, h5, h6, h56, ha5, ht5, hd5, hc5, ha6, ht6, hd6, _, hc6⟩
        · rw [herr] at h1
          cases h1
        · rw [h56] at h1
          cases h1
          obtain ⟨hle, k, hk1, hk2, hk3, hk4⟩ := tcp_friend_loop_exact _ _ _ _ r hr
          rw [hdl] at hle hk1 hr
          rw [floor_one_max, hd4] at hc6
          have hsh : ∀ x : Nat, (x <<< 4) % 2 ^ 32 = (x * 16) % 2 ^ 32 := by
            intro x
            rw [Nat.shiftLeft_eq]
          refine ⟨ca4, r, k, h4, hsplit, hd4, ha4, ht4, hr, hle, hk1, hk2, hk3, hk4, ha6, ht6,
            fun hT => ?_, fun hT => ?_⟩
          · rw [hc6, hc5, if_neg (by omega), hsh]
          · have hmin : ca5.cnt = min ca4.cnt (cwnd / (r.2 - cwnd)) := by
              rw [hc5, if_pos hT]
            have hfr : bictcp_update_friend ca4 cwnd =
                Except.ok { ca4 with ack_cnt := r.1, tcp_cwnd := r.2,
                                     cnt := min ca4.cnt (cwnd / (r.2 - cwnd)) } := by
              rw [update_friend_eq, hdl, hr, except_bind_ok, if_pos hT]
            have hq : (ca5.cnt * 16) % 2 ^ 32 / ca.delayed_ack ≤
                (cwnd / (r.2 - cwnd)) * 16 / ca.delayed_ack := by
              apply Nat.div_le_div_right
              have : ca5.cnt ≤ cwnd / (r.2 - cwnd) := by rw [hmin]; exact Nat.min_le_right _ _
              have h2 : (ca5.cnt * 16) % 2 ^ 32 ≤ ca5.cnt * 16 := Nat.mod_le _ _
              omega
            have hb : ca1.cnt ≤ max 1 ((cwnd / (r.2 - cwnd)) * 16 / ca.delayed_ack) := by
              rw [hc6]
              omega
            refine ⟨hfr, by rw [hc6, hmin, hsh], hb, fun h28 => ?_⟩
            have hM : cwnd / (r.2 - cwnd) ≤ cwnd := Nat.div_le_self _ _
            have hs : ((cwnd / (r.2 - cwnd)) <<< 4) % 2 ^ 32 = (cwnd / (r.2 - cwnd)) * 16 := by
              rw [Nat.shiftLeft_eq]
              exact Nat.mod_eq_of_lt (by omega)
            rw [hs]
            exact hb
  · obtain ⟨ca4, h4, hd4, _, _⟩ := update_before_friend_total e t ca cwnd (by omega)
    rw [update_full_split e t ca cwnd hfull (by omega) ca4 h4]
    exact friend_scale_returns ca4 cwnd (by omega) hdelta

/-- C18 on the connection that lost a segment at a window of 37 and has since
received fifty ACKs at a window of 26 (`plateau_block`), when the next ACK
arrives a tenth of a second later: the curve gives a growth rate of 2600, the
loop turns the 50 counted ACKs into one round (bound 48), the Reno estimate
becomes `T = 27 > 26`, the friendliness block cuts the growth rate to
`min 2600 (26 / 1) = 26`, and the final `cnt` is `26 * 16 / 32 = 13`. -/
theorem C18_tcp_friendliness_witness :
    (1 ≤ 26 ∧ 26 * 15 < 2 ^ 32 ∧
      ¬ (plateau_block.last_cwnd = 26 ∧
        toS32 ((env_5100.tcp_time_stamp : Int) - (plateau_block.last_time : Int)) ≤
          ((env_5100.HZ / 32 : Nat) : Int)) ∧
      ctcp_bictcp_update env_5100 0 plateau_block 26 = Except.ok plateau_next) ∧
    (∃ ca4 r k,
        update_before_friend env_5100 0 plateau_block 26 = Except.ok ca4 ∧
        ctcp_bictcp_update env_5100 0 plateau_block 26 =
          (bictcp_update_friend ca4 26).bind bictcp_update_scale ∧
        ca4.delayed_ack = plateau_block.delayed_ack ∧
        ca4.ack_cnt =
          (if plateau_block.epoch_start = 0 then 1
           else (plateau_block.ack_cnt + 1) % 2 ^ 32) ∧
        ca4.tcp_cwnd = (if plateau_block.epoch_start = 0 then 26 else plateau_block.tcp_cwnd) ∧
        tcp_friend_loop ca4.ack_cnt ((26 * 15) >>> 3) ca4.ack_cnt ca4.tcp_cwnd = Except.ok r ∧
        r.1 ≤ (26 * 15) >>> 3 ∧
        ca4.ack_cnt = r.1 + k * ((26 * 15) >>> 3) ∧ (k = 0 ∨ 1 ≤ r.1) ∧
        (k = 0 → r.2 = ca4.tcp_cwnd) ∧ (1 ≤ k → r.2 = (ca4.tcp_cwnd + k) % 2 ^ 32) ∧
        plateau_next.ack_cnt = r.1 ∧ plateau_next.tcp_cwnd = r.2 ∧
        (r.2 ≤ 26 →
          plateau_next.cnt = max 1 (((ca4.cnt <<< 4) % 2 ^ 32) / plateau_block.delayed_ack)) ∧
        (r.2 > 26 →
          bictcp_update_friend ca4 26 =
            Except.ok { ca4 with ack_cnt := r.1, tcp_cwnd := r.2,
                                 cnt := min ca4.cnt (26 / (r.2 - 26)) } ∧
          plateau_next.cnt =
            max 1 ((((min ca4.cnt (26 / (r.2 - 26))) <<< 4) % 2 ^ 32) /
              plateau_block.delayed_ack) ∧
          plateau_next.cnt ≤ max 1 ((26 / (r.2 - 26)) * 16 / plateau_block.delayed_ack) ∧
          (26 < 2 ^ 28 →
            plateau_next.cnt ≤
              max 1 ((((26 / (r.2 - 26)) <<< 4) % 2 ^ 32) / plateau_block.delayed_ack)))) ∧
    update_before_friend env_5100 0 plateau_block 26 = Except.ok plateau_entry ∧
    tcp_friend_loop plateau_entry.ack_cnt ((26 * 15) >>> 3) plateau_entry.ack_cnt
      plateau_entry.tcp_cwnd = Except.ok (2, 27) ∧
    plateau_next.tcp_cwnd > 26 ∧
    min plateau_entry.cnt (26 / (plateau_next.tcp_cwnd - 26)) = 26 ∧
    plateau_next.cnt = 13 ∧
    max 1 ((26 / (plateau_next.tcp_cwnd - 26)) * 16 / plateau_block.delayed_ack) = 13 :=
  ⟨⟨by decide, by decide, by decide, by decide⟩,
    (C18_tcp_friendliness env_5100 0 plateau_block 26 (by decide) (by decide)
      (by decide)).1 plateau_next (by decide),
    by decide, by decide, by decide, by decide, by decide, by decide⟩

/-! ## The delayed-ACK ratio -/

/-- The clamp is at least its lower limit when the limits are in order. -/
theorem clamp_ge (x lo hi : Nat) (h : lo ≤ hi) : lo ≤ clamp x lo hi := by
  simp only [clamp]
  split_ifs <;> omega

/-- `ctcp_hystart_update` does not write the delayed-ACK ratio. -/
theorem hystart_update_dack (e : Env) (sk : ctcp_sock) (ca : bictcp) (delay : Nat) :
    (ctcp_hystart_update e sk ca delay).2.delayed_ack = ca.delayed_ack := by
  rw [hystart_update_unfold, hystart_delay_sample_eq, hystart_ack_train_eq]
  split_ifs <;> rfl

/-- `ctcp_bictcp_acked` leaves the delayed-ACK ratio in `[1, 512]` on an `Open`
connection and as it was otherwise. -/
theorem acked_dack (e : Env) (sk : ctcp_sock) (ca : bictcp) (cnt : Nat) (rtt_us : Int) :
    (ctcp_ca_state.CTCP_CA_OPEN = sk.ca_state →
        1 ≤ (ctcp_bictcp_acked e sk ca cnt rtt_us).2.delayed_ack ∧
          (ctcp_bictcp_acked e sk ca cnt rtt_us).2.delayed_ack ≤ 512) ∧
      (ctcp_ca_state.CTCP_CA_OPEN ≠ sk.ca_state →
        (ctcp_bictcp_acked e sk ca cnt rtt_us).2.delayed_ack = ca.delayed_ack) := by
  have hrange : ∀ x, 1 ≤ (clamp x 1 CTCP_ACK_RATIO_LIMIT) % U16 ∧
      (clamp x 1 CTCP_ACK_RATIO_LIMIT) % U16 ≤ 512 := by
    intro x
    have h1 := clamp_ge x 1 CTCP_ACK_RATIO_LIMIT (by decide)
    have h2 := clamp_le x 1 CTCP_ACK_RATIO_LIMIT
    have h3 : CTCP_ACK_RATIO_LIMIT = 512 := rfl
    rw [h3] at h1 h2 ⊢
    simp only [U16]
    omega
  unfold ctcp_bictcp_acked
  dsimp only
  constructor
  · intro ho
    rw [if_pos ho]
    split_ifs <;> first
      | exact hrange _
      | (rw [hystart_update_dack]; exact hrange _)
  · intro ho
    rw [if_neg ho]
    split_ifs <;> first
      | rfl
      | (rw [hystart_update_dack])

/-- `ctcp_bictcp_update` does not write the delayed-ACK ratio. -/
theorem update_dack (e : Env) (t : Nat) (ca : bictcp) (cwnd : Nat) (ca1 : bictcp)
    (h : ctcp_bictcp_update e t ca cwnd = Except.ok ca1) :
    ca1.delayed_ack = ca.delayed_ack := by
  by_cases hearly : ca.last_cwnd = cwnd ∧
      toS32 ((e.tcp_time_stamp : Int) - (ca.last_time : Int)) ≤ ((e.HZ / 32 : Nat) : Int)
  · rw [update_early e t ca cwnd hearly] at h
    cases h
    rfl
  · by_cases hz : e.HZ = 0
    · rw [update_full_hz0 e t ca cwnd hearly hz] at h
      cases h
    · obtain ⟨ca4, hd4, heq⟩ := update_full_eq e t ca cwnd hearly hz
      rw [heq] at h
      by_cases hd : ca4.delayed_ack = 0
      · exact absurd h (friend_scale_zero ca4 cwnd hd ca1)
      · rcases friend_scale_outcome ca4 cwnd hd with herr | ⟨r, ca5, ca6, _, _, _, h6, hrest⟩
        · rw [herr] at h
          cases h
        · rw [h6] at h
          cases h
          rw [hrest.2.2.2.2.2.2.1, hd4]

/-- `ctcp_bictcp_cong_avoid` does not write the delayed-ACK ratio. -/
theorem cong_avoid_dack (e : Env) (t : Nat) (sk : ctcp_sock) (ca : bictcp) (ack acked : Nat)
    (r : ctcp_sock × bictcp) (h : ctcp_bictcp_cong_avoid e t sk ca ack acked = Except.ok r) :
    r.2.delayed_ack = ca.delayed_ack := by
  unfold ctcp_bictcp_cong_avoid at h
  by_cases hl : (!ctcp_is_cwnd_limited sk) = true
  · rw [if_pos hl] at h
    cases h
    rfl
  · rw [if_neg hl] at h
    by_cases hss : sk.snd_cwnd ≤ sk.send_ssthresh
    · rw [if_pos hss] at h
      cases h
      dsimp only
      split <;> rfl
    · rw [if_neg hss] at h
      obtain ⟨ca1, h1, h2⟩ := except_bind_inv _ _ _ h
      cases h2
      exact update_dack e t ca sk.snd_cwnd ca1 h1

/-- `ctcp_bictcp_init` sets the delayed-ACK ratio to `2 << 4`. -/
theorem init_dack (e : Env) (sk : ctcp_sock) (ca : bictcp) :
    (ctcp_bictcp_init e sk ca).2.delayed_ack = 32 := rfl

/-- `ctcp_bictcp_state` on `Loss` sets the delayed-ACK ratio to `2 << 4`. -/
theorem state_loss_dack (e : Env) (sk : ctcp_sock) (ca : bictcp) :
    (ctcp_bictcp_state e sk ca ctcp_ca_state.CTCP_CA_LOSS).2.delayed_ack = 32 := rfl

/-- Every call that returns leaves the delayed-ACK ratio in `[1, 512]` if it
was there before; `init` puts it there. -/
theorem cubic_apply_dack (ca : bictcp) (c : cubic_call) (ca1 : bictcp)
    (h : cubic_apply ca c = Except.ok ca1)
    (hin : 1 ≤ ca.delayed_ack ∧ ca.delayed_ack ≤ 512) :
    1 ≤ ca1.delayed_ack ∧ ca1.delayed_ack ≤ 512 := by
  cases c with
  | init e sk =>
    simp only [cubic_apply] at h
    cases h
    rw [init_dack]
    exact ⟨by decide, by decide⟩
  | ssthresh sk =>
    simp only [cubic_apply] at h
    cases h
    have : (ctcp_bictcp_recalc_ssthresh sk ca).1.2.delayed_ack = ca.delayed_ack := by
      simp only [ctcp_bictcp_recalc_ssthresh]
      split <;> rfl
    rw [this]
    exact hin
  | cong_avoid e t sk ack acked =>
    simp only [cubic_apply] at h
    obtain ⟨r, h1, h2⟩ := except_bind_inv _ _ _ h
    cases h2
    rw [cong_avoid_dack e t sk ca ack acked r h1]
    exact hin
  | set_state e sk new_state =>
    simp only [cubic_apply] at h
    cases h
    by_cases hs : new_state = ctcp_ca_state.CTCP_CA_LOSS
    · rw [hs, state_loss_dack]
      exact ⟨by decide, by decide⟩
    · unfold ctcp_bictcp_state
      rw [if_neg (fun hh => hs hh.symm)]
      exact hin
  | undo_cwnd sk =>
    simp only [cubic_apply] at h
    cases h
    exact hin
  | pkts_acked e sk cnt rtt_us =>
    simp only [cubic_apply] at h
    cases h
    obtain ⟨ho, hn⟩ := acked_dack e sk ca cnt rtt_us
    by_cases hst : ctcp_ca_state.CTCP_CA_OPEN = sk.ca_state
    · exact ho hst
    · rw [hn hst]
      exact hin

/-- The range `[1, 512]` of the delayed-ACK ratio survives every run. -/
theorem cubic_run_dack (calls : List cubic_call) :
    ∀ (ca ca1 : bictcp), cubic_run ca calls = Except.ok ca1 →
      (1 ≤ ca.delayed_ack ∧ ca.delayed_ack ≤ 512) →
      1 ≤ ca1.delayed_ack ∧ ca1.delayed_ack ≤ 512 := by
  induction calls with
  | nil =>
    intro ca ca1 h hin
    simp only [cubic_run] at h
    cases h
    exact hin
  | cons c rest ih =>
    intro ca ca1 h hin
    simp only [cubic_run] at h
    obtain ⟨ca2, h1, h2⟩ := except_bind_inv _ _ _ h
    exact ih ca2 ca1 h2 (cubic_apply_dack ca c ca2 h1 hin)

/-- C13: in every state reached from `init` by a sequence of the six interface
operations with arbitrary arguments the delayed-ACK ratio lies in `[1, 512]`;
`init` and `set_state` on `Loss` set it to 32, `pkts_acked` on an `Open`
connection is the only other writer: `set_state` on another state,
`ssthresh`, `undo_cwnd`, `cong_avoid` and `pkts_acked` on a connection that is
not `Open` leave it as it was. -/
theorem C13_delayed_ack_range (e0 : Env) (sk0 : ctcp_sock) (ca0 : bictcp)
    (calls : List cubic_call) (ca : bictcp)
    (h : cubic_run (ctcp_bictcp_init e0 sk0 ca0).2 calls = Except.ok ca) :
    (1 ≤ ca.delayed_ack ∧ ca.delayed_ack ≤ 512) ∧
      (ctcp_bictcp_init e0 sk0 ca0).2.delayed_ack = 32 ∧
      (∀ e sk c, (ctcp_bictcp_state e sk c ctcp_ca_state.CTCP_CA_LOSS).2.delayed_ack = 32) ∧
      (∀ e sk c s, s ≠ ctcp_ca_state.CTCP_CA_LOSS →
        (ctcp_bictcp_state e sk c s).2.delayed_ack = c.delayed_ack) ∧
      (∀ sk c, (ctcp_bictcp_recalc_ssthresh sk c).1.2.delayed_ack = c.delayed_ack) ∧
      (∀ sk c, (ctcp_bictcp_undo_cwnd sk c).1.2.delayed_ack = c.delayed_ack) ∧
      (∀ e t sk c ack acked r, ctcp_bictcp_cong_avoid e t sk c ack acked = Except.ok r →
        r.2.delayed_ack = c.delayed_ack) ∧
      (∀ e sk c cnt rtt_us, ctcp_ca_state.CTCP_CA_OPEN ≠ sk.ca_state →
        (ctcp_bictcp_acked e sk c cnt rtt_us).2.delayed_ack = c.delayed_ack) := by
  refine ⟨cubic_run_dack calls _ ca h (by rw [init_dack]; exact ⟨by decide, by decide⟩), rfl,
    fun _ _ _ => rfl,
    fun e sk c s hs => ?_, fun sk c => ?_, fun _ _ => rfl,
    fun e t sk c ack acked r hr => cong_avoid_dack e t sk c ack acked r hr,
    fun e sk c cnt rtt_us ho => (acked_dack e sk c cnt rtt_us).2 ho⟩
  · unfold ctcp_bictcp_state
    rw [if_neg (fun hh => hs hh.symm)]
  · simp only [ctcp_bictcp_recalc_ssthresh]
    split <;> rfl

/-- C13 on a run that acknowledges `2^32 - 1` segments at once, takes a loss,
grows the window in congestion avoidance and acknowledges 100000 segments at
once: the ratio ends at 480. -/
theorem C13_delayed_ack_range_witness :
    cubic_run (ctcp_bictcp_init env_5000 scenario_A bictcp_zero).2 demo_calls =
      Except.ok demo_final ∧
    ((1 ≤ demo_final.delayed_ack ∧ demo_final.delayed_ack ≤ 512) ∧
      (ctcp_bictcp_init env_5000 scenario_A bictcp_zero).2.delayed_ack = 32 ∧
      (∀ e sk c, (ctcp_bictcp_state e sk c ctcp_ca_state.CTCP_CA_LOSS).2.delayed_ack = 32) ∧
      (∀ e sk c s, s ≠ ctcp_ca_state.CTCP_CA_LOSS →
        (ctcp_bictcp_state e sk c s).2.delayed_ack = c.delayed_ack) ∧
      (∀ sk c, (ctcp_bictcp_recalc_ssthresh sk c).1.2.delayed_ack = c.delayed_ack) ∧
      (∀ sk c, (ctcp_bictcp_undo_cwnd sk c).1.2.delayed_ack = c.delayed_ack) ∧
      (∀ e t sk c ack acked r, ctcp_bictcp_cong_avoid e t sk c ack acked = Except.ok r →
        r.2.delayed_ack = c.delayed_ack) ∧
      (∀ e sk c cnt rtt_us, ctcp_ca_state.CTCP_CA_OPEN ≠ sk.ca_state →
        (ctcp_bictcp_acked e sk c cnt rtt_us).2.delayed_ack = c.delayed_ack)) ∧
    demo_final.delayed_ack = 480 :=
  ⟨by decide, C13_delayed_ack_range env_5000 scenario_A bictcp_zero demo_calls demo_final
    (by decide), by decide⟩

/-! ## The curve evaluation -/

/-- The curve evaluation in terms of its `delta`. -/
theorem update_target_eq (ca : bictcp) (t : Nat) :
    bictcp_update_target ca t =
      if t < ca.bic_K then (ca.bic_origin_point + U32 - bictcp_curve_delta (ca.bic_K - t)) % U32
      else (ca.bic_origin_point + bictcp_curve_delta (t - ca.bic_K)) % U32 := by
  unfold bictcp_update_target bictcp_curve_delta
  dsimp only
  by_cases h : t < ca.bic_K
  · rw [if_pos h, if_pos h, if_pos h]
  · rw [if_neg h, if_neg h, if_neg h]

/-- The `delta` of the curve is `410 * offs^3` cut to 64 bits, shifted right
by 40. -/
theorem curve_delta_eq (d : Nat) :
    bictcp_curve_delta d = (((410 * d ^ 3) % 2 ^ 64) >>> 40) % 2 ^ 32 := by
  unfold bictcp_curve_delta
  have h : (((cube_rtt_scale * d) % U64 * d) % U64 * d) % U64 = (410 * d ^ 3) % 2 ^ 64 := by
    show (((410 * d) % 2 ^ 64 * d) % 2 ^ 64 * d) % 2 ^ 64 = (410 * d ^ 3) % 2 ^ 64
    calc (((410 * d) % 2 ^ 64 * d) % 2 ^ 64 * d) % 2 ^ 64
        = (((410 * d) % 2 ^ 64 * d) * d) % 2 ^ 64 := Nat.mod_mul_mod
      _ = ((410 * d) % 2 ^ 64 * (d * d)) % 2 ^ 64 := by rw [Nat.mul_assoc]
      _ = ((410 * d) * (d * d)) % 2 ^ 64 := Nat.mod_mul_mod
      _ = (410 * d ^ 3) % 2 ^ 64 := by
        congr 1
        ring
  rw [h]
  rfl

/-- C14 fails on the code: ten seconds into an open epoch (`epoch_start = 4000`,
`tcp_time_stamp = 14000`, `HZ = 1000`) the elapsed time in units of `2^-10` s
is 10240 and the curve at that time has the target `100 + 400 = 500`; the code,
whose local `t` holds whatever it held on entry (0 here), evaluates the curve
at `t = 0`, gets the target 100 and leaves `cnt = 10000`; had `t` held the
elapsed 10000 ticks, it would have left `cnt = 1`. -/
theorem C14_curve_time_not_elapsed :
    open_epoch.epoch_start ≠ 0 ∧
      ¬ (open_epoch.last_cwnd = 100 ∧
        toS32 ((env_14000.tcp_time_stamp : Int) - (open_epoch.last_time : Int)) ≤
          ((env_14000.HZ / 32 : Nat) : Int)) ∧
      spec_curve_time env_14000 open_epoch = 10240 ∧
      bictcp_update_target open_epoch (spec_curve_time env_14000 open_epoch) = 500 ∧
      bictcp_update_target open_epoch ((0 <<< CTCP_BICTCP_HZ) % U64 / env_14000.HZ) = 100 ∧
      (ctcp_bictcp_update env_14000 0 open_epoch 100).toOption.map (fun c => c.cnt) =
        some 10000 ∧
      (ctcp_bictcp_update env_14000 10000 open_epoch 100).toOption.map (fun c => c.cnt) =
        some 1 := by
  decide

/-- C15 as stated fails where the cube no longer fits 64 bits: with
`origin_point = 50000000`, `bic_K = 400000` and `d = 400000`,
`(410 * d^3) >> 40` is 23865140 but the code's `delta` is 7087924, so the target
at `t = bic_K - d` is 42912076 and not `origin_point - 23865140`. -/
theorem C15_counterexample :
    (0 < 400000 ∧ 400000 ≤ wide_curve.bic_K) ∧
      ((410 * 400000 ^ 3) >>> 40) % 2 ^ 32 = 23865140 ∧
      bictcp_update_target wide_curve (wide_curve.bic_K - 400000) = 42912076 ∧
      bictcp_update_target wide_curve (wide_curve.bic_K - 400000) ≠
        (wide_curve.bic_origin_point + 2 ^ 32 - ((410 * 400000 ^ 3) >>> 40) % 2 ^ 32) % 2 ^ 32 ∧
      bictcp_update_target wide_curve (wide_curve.bic_K + 400000) ≠
        (wide_curve.bic_origin_point + ((410 * 400000 ^ 3) >>> 40) % 2 ^ 32) % 2 ^ 32 := by
  decide

/-- C15, amended: the curve evaluation is symmetric around `bic_K`: for `0 < d ≤ bic_K`
the target at `t = bic_K - d` is `origin_point - f(d)` and the target at
`t = bic_K + d` is `origin_point + f(d)` in `u32`, with the same
`f(d) = bictcp_curve_delta d`, the code's `(410 * d^3) >> 40` (the product cut
to 64 bits, the result to 32; exactly `(410 * d^3) >> 40` when
`410 * d^3 < 2^64`), so the two targets add up to `2 * origin_point` modulo
`2^32`. -/
theorem C15_curve_symmetry (ca : bictcp) (d : Nat) (hd : 0 < d) (hk : d ≤ ca.bic_K) :
    bictcp_update_target ca (ca.bic_K - d) =
        (ca.bic_origin_point + 2 ^ 32 - bictcp_curve_delta d) % 2 ^ 32 ∧
      bictcp_update_target ca (ca.bic_K + d) =
        (ca.bic_origin_point + bictcp_curve_delta d) % 2 ^ 32 ∧
      (bictcp_update_target ca (ca.bic_K - d) + bictcp_update_target ca (ca.bic_K + d)) % 2 ^ 32 =
        (2 * ca.bic_origin_point) % 2 ^ 32 ∧
      bictcp_curve_delta d = (((410 * d ^ 3) % 2 ^ 64) >>> 40) % 2 ^ 32 ∧
      (410 * d ^ 3 < 2 ^ 64 → bictcp_curve_delta d = (410 * d ^ 3) >>> 40) := by
  have h1 : bictcp_update_target ca (ca.bic_K - d) =
      (ca.bic_origin_point + 2 ^ 32 - bictcp_curve_delta d) % 2 ^ 32 := by
    rw [update_target_eq, if_pos (by omega)]
    have e : ca.bic_K - (ca.bic_K - d) = d := by omega
    rw [e]
    rfl
  have h2 : bictcp_update_target ca (ca.bic_K + d) =
      (ca.bic_origin_point + bictcp_curve_delta d) % 2 ^ 32 := by
    rw [update_target_eq, if_neg (by omega)]
    have e : ca.bic_K + d - ca.bic_K = d := by omega
    rw [e]
    rfl
  have hlt : bictcp_curve_delta d < 2 ^ 32 := by
    rw [curve_delta_eq]
    exact Nat.mod_lt _ (by decide)
  refine ⟨h1, h2, ?_, curve_delta_eq d, fun hs => ?_⟩
  · rw [h1, h2]
    generalize bictcp_curve_delta d = f at hlt
    omega
  · rw [curve_delta_eq, Nat.mod_eq_of_lt hs, Nat.shiftRight_eq_div_pow]
    apply Nat.mod_eq_of_lt
    omega

/-- C15 at `origin_point = 1000`, `bic_K = 20000`, `d = 10240`: `f(d) = 400`,
the targets are 600 and 1400. -/
theorem C15_curve_symmetry_witness :
    (0 < 10240 ∧ 10240 ≤ curve_block.bic_K) ∧
    (bictcp_update_target curve_block (curve_block.bic_K - 10240) =
        (curve_block.bic_origin_point + 2 ^ 32 - bictcp_curve_delta 10240) % 2 ^ 32 ∧
      bictcp_update_target curve_block (curve_block.bic_K + 10240) =
        (curve_block.bic_origin_point + bictcp_curve_delta 10240) % 2 ^ 32 ∧
      (bictcp_update_target curve_block (curve_block.bic_K - 10240) +
          bictcp_update_target curve_block (curve_block.bic_K + 10240)) % 2 ^ 32 =
        (2 * curve_block.bic_origin_point) % 2 ^ 32 ∧
      bictcp_curve_delta 10240 = (((410 * 10240 ^ 3) % 2 ^ 64) >>> 40) % 2 ^ 32 ∧
      (410 * 10240 ^ 3 < 2 ^ 64 → bictcp_curve_delta 10240 = (410 * 10240 ^ 3) >>> 40)) ∧
    bictcp_curve_delta 10240 = 400 ∧
    bictcp_update_target curve_block (curve_block.bic_K - 10240) = 600 ∧
    bictcp_update_target curve_block (curve_block.bic_K + 10240) = 1400 :=
  ⟨⟨by decide, by decide⟩, C15_curve_symmetry curve_block 10240 (by decide) (by decide),
    by decide, by decide, by decide⟩

/-! ## Additive increase -/

/-- Runs of the additive increase compose. -/
theorem ai_run_add (c : Nat) : ∀ (m n : Nat) (sk : ctcp_sock),
    ai_run c (m + n) sk = ai_run c n (ai_run c m sk) := by
  intro m
  induction m with
  | zero =>
    intro n sk
    rw [Nat.zero_add]
    rfl
  | succ m ih =>
    intro n sk
    have e : m + 1 + n = (m + n) + 1 := by omega
    rw [e]
    exact ih n (ctcp_cong_avoid_ai sk c)

/-- While the counter is below `wnd_cnt` each call only counts. -/
theorem ai_run_count (c : Nat) (hc : c < 2 ^ 32) : ∀ (j : Nat) (sk : ctcp_sock),
    sk.send_cwnd_cnt + j ≤ c →
      ai_run c j sk = { sk with send_cwnd_cnt := sk.send_cwnd_cnt + j } := by
  intro j
  induction j with
  | zero =>
    intro sk _
    rfl
  | succ j ih =>
    intro sk h
    have hlt : ¬ sk.send_cwnd_cnt ≥ c := by omega
    have hstep : ctcp_cong_avoid_ai sk c = { sk with send_cwnd_cnt := sk.send_cwnd_cnt + 1 } := by
      unfold ctcp_cong_avoid_ai
      rw [if_neg hlt]
      have e : (sk.send_cwnd_cnt + 1) % U32 = sk.send_cwnd_cnt + 1 :=
        Nat.mod_eq_of_lt (by simp only [U32]; omega)
      rw [e]
    show ai_run c j (ctcp_cong_avoid_ai sk c) = _
    rw [hstep, ih _ (by simp only; omega)]
    have e : sk.send_cwnd_cnt + 1 + j = sk.send_cwnd_cnt + (j + 1) := by omega
    simp only [e]

/-- From a counter of 0 the window grows on call `wnd_cnt + 1`. -/
theorem ai_run_period (c : Nat) (hc : c < 2 ^ 32) (sk : ctcp_sock)
    (h0 : sk.send_cwnd_cnt = 0) :
    ai_run c (c + 1) sk = { sk with snd_cwnd := (sk.snd_cwnd + 1) % 2 ^ 32, send_cwnd_cnt := 0 } := by
  rw [ai_run_add, ai_run_count c hc c sk (by omega), h0, Nat.zero_add]
  show ctcp_cong_avoid_ai _ c = _
  unfold ctcp_cong_avoid_ai
  rw [if_pos (Nat.le_refl c)]
  rfl

/-- From a counter of 0 the window has grown by `k` after `k * (wnd_cnt + 1)`
calls. -/
theorem ai_run_periods (c : Nat) (hc : c < 2 ^ 32) : ∀ (k : Nat) (sk : ctcp_sock),
    sk.send_cwnd_cnt = 0 → sk.snd_cwnd < 2 ^ 32 →
      ai_run c (k * (c + 1)) sk =
        { sk with snd_cwnd := (sk.snd_cwnd + k) % 2 ^ 32, send_cwnd_cnt := 0 } := by
  intro k
  induction k with
  | zero =>
    intro sk h0 hw
    rw [Nat.zero_mul, Nat.add_zero, Nat.mod_eq_of_lt hw]
    show sk = _
    rw [← h0]
  | succ k ih =>
    intro sk h0 hw
    have e : (k + 1) * (c + 1) = (c + 1) + k * (c + 1) := by ring
    rw [e, ai_run_add, ai_run_period c hc sk h0, ih _ rfl (Nat.mod_lt _ (by decide))]
    have e2 : ((sk.snd_cwnd + 1) % 2 ^ 32 + k) % 2 ^ 32 = (sk.snd_cwnd + (k + 1)) % 2 ^ 32 := by
      omega
    simp only [e2]

/-- C19 on the code: starting from a counter of 0 with the same 32-bit
`wnd_cnt = c`, the first `c` calls of `ctcp_cong_avoid_ai` only count (the
window is unchanged and the counter is `c`, not 0); the window grows on call
`c + 1`, which also resets the counter; and after `k * (c + 1)` calls the
window has grown by `k` (modulo `2^32`). The period is `c + 1` calls, not
`c`. -/
theorem C19_ai_period (c : Nat) (sk : ctcp_sock) (hc : c < 2 ^ 32)
    (h0 : sk.send_cwnd_cnt = 0) (hw : sk.snd_cwnd < 2 ^ 32) :
    ai_run c c sk = { sk with send_cwnd_cnt := c } ∧
      ai_run c (c + 1) sk =
        { sk with snd_cwnd := (sk.snd_cwnd + 1) % 2 ^ 32, send_cwnd_cnt := 0 } ∧
      (∀ k, ai_run c (k * (c + 1)) sk =
        { sk with snd_cwnd := (sk.snd_cwnd + k) % 2 ^ 32, send_cwnd_cnt := 0 }) := by
  refine ⟨?_, ai_run_period c hc sk h0, fun k => ai_run_periods c hc k sk h0 hw⟩
  rw [ai_run_count c hc c sk (by omega), h0, Nat.zero_add]

/-- C19 at a window of 100 and `wnd_cnt = 3`: after 3 calls the window is
still 100 and the counter is 3; after 4 calls the window is 101; after
`2 * 3 = 6` calls it is 101, not 102; after `2 * 4 = 8` calls it is 102. -/
theorem C19_ai_period_witness :
    ((3 : Nat) < 2 ^ 32 ∧ scenario_B.send_cwnd_cnt = 0 ∧ scenario_B.snd_cwnd < 2 ^ 32) ∧
    (ai_run 3 3 scenario_B = { scenario_B with send_cwnd_cnt := 3 } ∧
      ai_run 3 (3 + 1) scenario_B =
        { scenario_B with snd_cwnd := (scenario_B.snd_cwnd + 1) % 2 ^ 32, send_cwnd_cnt := 0 } ∧
      (∀ k, ai_run 3 (k * (3 + 1)) scenario_B =
        { scenario_B with snd_cwnd := (scenario_B.snd_cwnd + k) % 2 ^ 32,
                          send_cwnd_cnt := 0 })) ∧
    (ai_run 3 3 scenario_B).snd_cwnd = 100 ∧ (ai_run 3 3 scenario_B).send_cwnd_cnt = 3 ∧
    (ai_run 3 4 scenario_B).snd_cwnd = 101 ∧ (ai_run 3 6 scenario_B).snd_cwnd = 101 ∧
    (ai_run 3 8 scenario_B).snd_cwnd = 102 :=
  ⟨⟨by decide, by decide, by decide⟩,
    C19_ai_period 3 scenario_B (by decide) (by decide) (by decide),
    by decide, by decide, by decide, by decide, by decide⟩

end CloriTCP
